import Mathlib

/-!
Verification of the UserSig issuing/verification core
(`internal/sign/TLSSigAPI.go`).

Go strings and `[]byte` values are modelled as `List Nat` of byte values
(each `< 256` where it matters); a nilable `[]byte` is `Option (List Nat)`
when the code distinguishes `nil` from empty (the document's user buffer),
and a plain `List Nat` when only `bytes.Equal` is ever applied (the
signature field, since `bytes.Equal nil empty = true`).  Machine integers
are `Nat`/`Int` with explicit reduction `% 2^w` at the points where the Go
code converts or wraps.  The wall-clock reads (`time.Now().Unix()`) inside
`genSig` and `genUserBuf` are made explicit `now : Int` parameters.
-/

/-- ASCII byte list of a literal string (all characters here are ASCII). -/
def ascii (s : String) : List Nat := s.toList.map Char.toNat

/-- All entries of a byte list are genuine bytes. -/
def isBytes (l : List Nat) : Prop := ∀ b ∈ l, b < 256

instance isBytes.dec (l : List Nat) : Decidable (isBytes l) := by
  unfold isBytes; infer_instance

/-- Decimal digits of a natural number, with explicit recursion fuel
(structural, so that concrete instances reduce in the kernel). -/
def decimalNatAux (fuel : Nat) (n : Nat) : List Nat :=
  match fuel with
  | 0 => []
  | fuel + 1 =>
      if n < 10 then [48 + n]
      else decimalNatAux fuel (n / 10) ++ [48 + n % 10]

/-- Decimal digits of a natural number, as ASCII bytes
(`strconv.FormatUint`). -/
def decimalNat (n : Nat) : List Nat := decimalNatAux (n + 1) n

/-- Decimal rendering of an integer, as ASCII bytes
(`strconv.FormatInt`): a leading `-` for negative values. -/
def decimalInt (i : Int) : List Nat :=
  if i < 0 then 45 :: decimalNat (-i).toNat else decimalNat i.toNat

/-- Character of a 6-bit group in the standard base64 alphabet
(`encoding/base64.StdEncoding`). -/
def b64charStd (s : Nat) : Nat :=
  if s < 26 then 65 + s
  else if s < 52 then 97 + (s - 26)
  else if s < 62 then 48 + (s - 52)
  else if s = 62 then 43 else 47

/-- Standard (padded) base64 encoding of a byte list
(`base64.StdEncoding.EncodeToString`). -/
def b64encodeStd : List Nat → List Nat
  | [] => []
  | [b1] =>
      let n := (b1 % 256) * 65536
      [b64charStd (n / 262144), b64charStd (n / 4096 % 64), 61, 61]
  | [b1, b2] =>
      let n := (b1 % 256) * 65536 + (b2 % 256) * 256
      [b64charStd (n / 262144), b64charStd (n / 4096 % 64),
       b64charStd (n / 64 % 64), 61]
  | b1 :: b2 :: b3 :: rest =>
      let n := (b1 % 256) * 65536 + (b2 % 256) * 256 + b3 % 256
      b64charStd (n / 262144) :: b64charStd (n / 4096 % 64) ::
        b64charStd (n / 64 % 64) :: b64charStd (n % 64) :: b64encodeStd rest

/-- Big-endian 8-byte rendering of `n % 2^64`. -/
def be64 (n : Nat) : List Nat :=
  [n / 2 ^ 56 % 256, n / 2 ^ 48 % 256, n / 2 ^ 40 % 256, n / 2 ^ 32 % 256,
   n / 2 ^ 24 % 256, n / 2 ^ 16 % 256, n / 2 ^ 8 % 256, n % 256]

/-- Modelled from the spec: the keyed MAC (`crypto/hmac` with
`crypto/sha256`, Go standard library, not in `src/`).  Spec §4.2: "HMAC
with a 256-bit-output hash function, keyed by the raw shared secret",
computed over the canonical message.  The hash internals are outside the
spec's contract, so the MAC is modelled symbolically, as is standard in
symbolic cryptographic verification: an injective keyed function of
`(key, message)` (a length prefix makes the pair recoverable), an ideal
MAC with no collisions.  Every property proved about it below depends only
on the MAC being a deterministic function that separates distinct
messages under the same key. -/
def hmacSha256 (key msg : List Nat) : List Nat :=
  be64 key.length ++ key ++ msg

/-- The token document (`userSig` struct, lines 300-308). -/
structure userSig where
  Version : List Nat := []
  Identifier : List Nat := []
  SdkAppID : Nat := 0
  Expire : Int := 0
  Time : Int := 0
  UserBuf : Option (List Nat) := none
  Sig : List Nat := []
deriving Repr, DecidableEq

/-- The fixed tag literals of the canonical message (lines 359-366). -/
def sigIdentifierTag : List Nat := ascii "TLS.identifier:"

def sigSdkAppIDTag : List Nat := ascii "TLS.sdkappid:"

def sigTimeTag : List Nat := ascii "TLS.time:"

def sigExpireTag : List Nat := ascii "TLS.expire:"

def sigUserBufTag : List Nat := ascii "TLS.userbuf:"

def sigEnter : List Nat := ascii "\n"

/-- The canonical message fed to the MAC by `userSig.sign`
(lines 368-388): the sequence of `h.Write` calls, concatenated. -/
def userSig.signedMessage (u : userSig) : List Nat :=
  sigIdentifierTag ++ u.Identifier ++ sigEnter ++
  sigSdkAppIDTag ++ decimalNat u.SdkAppID ++ sigEnter ++
  sigTimeTag ++ decimalInt u.Time ++ sigEnter ++
  sigExpireTag ++ decimalInt u.Expire ++ sigEnter ++
  (match u.UserBuf with
   | some b => sigUserBufTag ++ b64encodeStd b ++ sigEnter
   | none => [])

/-- Model of `userSig.sign` (lines 368-388): HMAC-SHA256 keyed by the raw key
bytes over the canonical message. -/
def userSig.sign (u : userSig) (key : List Nat) : List Nat :=
  hmacSha256 key u.signedMessage

/-- The verification error values (lines 391-398), plus the
envelope-decode failure propagated by `VerifyUserSig` (lines 282-298). -/
inductive VerifyError where
  | DecodeError
  | ErrSdkAppIDNotMatch
  | ErrIdentifierNotMatch
  | ErrExpired
  | ErrUserBufTypeNotMatch
  | ErrUserBufNotMatch
  | ErrSigNotMatch
deriving Repr, DecidableEq

/-- Two's-complement wrap-around of Go `int64` addition. -/
def wrap64 (x : Int) : Int := (x + 2 ^ 63) % 2 ^ 64 - 2 ^ 63

/-- The user-buffer presence/equality check of `userSig.verify`
(lines 343-352): `nil`-ness of the expected buffer and of the document's
buffer must agree, and the contents must be byte-equal when both are
present. -/
def bufCheck (userbuf docBuf : Option (List Nat)) : Option VerifyError :=
  match userbuf with
  | some eb =>
      match docBuf with
      | none => some .ErrUserBufTypeNotMatch
      | some db => if ¬(eb = db) then some .ErrUserBufNotMatch else none
  | none =>
      match docBuf with
      | some _ => some .ErrUserBufTypeNotMatch
      | none => none

/-- Model of `userSig.verify` (lines 333-357).  `none` is the `nil` (success)
return; `now` is `now.Unix()`; the `int64` sum `u.Time+u.Expire` wraps. -/
def userSig.verify (u : userSig) (sdkappid : Nat) (key userid : List Nat)
    (now : Int) (userbuf : Option (List Nat)) : Option VerifyError :=
  if ¬(sdkappid = u.SdkAppID) then some .ErrSdkAppIDNotMatch
  else if ¬(userid = u.Identifier) then some .ErrIdentifierNotMatch
  else if now > wrap64 (u.Time + u.Expire) then some .ErrExpired
  else match bufCheck userbuf u.UserBuf with
    | some e => some e
    | none =>
        if ¬(u.sign key = u.Sig) then some .ErrSigNotMatch else none

/-- Go `uint32(x)` conversion from a (possibly negative) `int`:
reduction modulo `2^32`. -/
def u32ofInt (x : Int) : Nat := (x % 2 ^ 32).toNat

/-- The two's-complement bit image of a Go `int64` value, as a `Nat`
(used where the Go code applies bit masks to an `int64`). -/
def int64Bits (x : Int) : Nat := (x % 2 ^ 64).toNat

/-- The repeated 4-byte big-endian write pattern of `genUserBuf`
(e.g. lines 191-198): mask out each byte and shift it down. -/
def be32masked (v : Nat) : List Nat :=
  [(v &&& 0xFF000000) >>> 24, (v &&& 0x00FF0000) >>> 16,
   (v &&& 0x0000FF00) >>> 8, v &&& 0x000000FF]

/-- Model of `genUserBuf` (lines 162-254), with the wall-clock read
`time.Now().Unix()` (line 211) made an explicit `now` parameter.  The
sequential indexed writes into the pre-allocated array are rendered as
list concatenation in write order; the copy loops write all of `account`
and all of `roomStr`. -/
def genUserBuf (account : List Nat) (dwSdkappid : Int) (dwAuthID : Nat)
    (dwExpTime : Int) (dwPrivilegeMap : Nat) (dwAccountType : Nat)
    (roomStr : List Nat) (now : Int) : List Nat :=
  let appid := u32ofInt dwSdkappid
  let expire := int64Bits (now + dwExpTime)
  (if roomStr.length > 0 then [1] else [0]) ++
  [(account.length &&& 0xFF00) >>> 8, account.length &&& 0x00FF] ++
  account ++
  be32masked appid ++
  be32masked dwAuthID ++
  be32masked expire ++
  be32masked dwPrivilegeMap ++
  be32masked dwAccountType ++
  (if roomStr.length > 0 then
    [(roomStr.length &&& 0xFF00) >>> 8, roomStr.length &&& 0x00FF] ++ roomStr
   else [])

/-- Canonical 2-byte big-endian rendering (low 16 bits). -/
def be16 (v : Nat) : List Nat := [v / 2 ^ 8 % 256, v % 256]

/-- Canonical 4-byte big-endian rendering (low 32 bits). -/
def be32 (v : Nat) : List Nat :=
  [v / 2 ^ 24 % 256, v / 2 ^ 16 % 256, v / 2 ^ 8 % 256, v % 256]

/-- The spec's wording of the UserBuf record layout (spec §3, "UserBuf
Record"): formatVersion, identityLength, identity, applicationId,
resourceId, absoluteExpiry, privilegeBitmap, accountTypeTag, then (in the
string-resource variant only) resourceStringLength and resourceString,
all multi-byte integers big-endian and truncated to their stated width. -/
def specUserBufLayout (identity : List Nat)
    (applicationId resourceId absoluteExpiry privilegeBitmap
      accountTypeTag : Nat) (resourceString : List Nat) : List Nat :=
  (if resourceString.length = 0 then [0] else [1]) ++
  be16 identity.length ++ identity ++
  be32 applicationId ++ be32 resourceId ++ be32 absoluteExpiry ++
  be32 privilegeBitmap ++ be32 accountTypeTag ++
  (if resourceString.length = 0 then []
   else be16 resourceString.length ++ resourceString)

/-- Character of a 6-bit group in the URL-safe base64 alphabet.
Modelled from the spec (§4.3): the repository's `base64url` helper is not
in `src/`; "URL-safe base64 (the `+`/`/` alphabet replaced, padding rules
fixed and must match between encode/decode)" — `-`/`_` alphabet, unpadded. -/
def b64charUrl (s : Nat) : Nat :=
  if s < 26 then 65 + s
  else if s < 52 then 97 + (s - 26)
  else if s < 62 then 48 + (s - 52)
  else if s = 62 then 45 else 95

/-- Modelled from the spec (§4.3): URL-safe base64 encoding
(`base64url.EncodeToString`, not in `src/`), unpadded. -/
def b64encodeUrl : List Nat → List Nat
  | [] => []
  | [b1] =>
      let n := (b1 % 256) * 65536
      [b64charUrl (n / 262144), b64charUrl (n / 4096 % 64)]
  | [b1, b2] =>
      let n := (b1 % 256) * 65536 + (b2 % 256) * 256
      [b64charUrl (n / 262144), b64charUrl (n / 4096 % 64),
       b64charUrl (n / 64 % 64)]
  | b1 :: b2 :: b3 :: rest =>
      let n := (b1 % 256) * 65536 + (b2 % 256) * 256 + b3 % 256
      b64charUrl (n / 262144) :: b64charUrl (n / 4096 % 64) ::
        b64charUrl (n / 64 % 64) :: b64charUrl (n % 64) :: b64encodeUrl rest

/-- Inverse of `b64charUrl` on single characters; `none` on characters
outside the URL-safe alphabet. -/
def b64sextetUrl (c : Nat) : Option Nat :=
  if 65 ≤ c ∧ c ≤ 90 then some (c - 65)
  else if 97 ≤ c ∧ c ≤ 122 then some (26 + (c - 97))
  else if 48 ≤ c ∧ c ≤ 57 then some (52 + (c - 48))
  else if c = 45 then some 62
  else if c = 95 then some 63
  else none

/-- Modelled from the spec (§4.3): URL-safe base64 decoding
(`base64urlDecode`, not in `src/`), unpadded; fails on characters outside
the alphabet and on impossible lengths. -/
def b64decodeUrl : List Nat → Option (List Nat)
  | [] => some []
  | [c1, c2] => do
      let s1 ← b64sextetUrl c1
      let s2 ← b64sextetUrl c2
      some [s1 * 4 + s2 / 16]
  | [c1, c2, c3] => do
      let s1 ← b64sextetUrl c1
      let s2 ← b64sextetUrl c2
      let s3 ← b64sextetUrl c3
      some [s1 * 4 + s2 / 16, s2 % 16 * 16 + s3 / 4]
  | c1 :: c2 :: c3 :: c4 :: rest => do
      let s1 ← b64sextetUrl c1
      let s2 ← b64sextetUrl c2
      let s3 ← b64sextetUrl c3
      let s4 ← b64sextetUrl c4
      let tail ← b64decodeUrl rest
      some ((s1 * 4 + s2 / 16) :: ((s2 % 16 * 16 + s3 / 4) ::
        ((s3 % 4 * 64 + s4) :: tail)))
  | _ => none

/-- Inverse of `b64charStd` on single characters. -/
def b64sextetStd (c : Nat) : Option Nat :=
  if 65 ≤ c ∧ c ≤ 90 then some (c - 65)
  else if 97 ≤ c ∧ c ≤ 122 then some (26 + (c - 97))
  else if 48 ≤ c ∧ c ≤ 57 then some (52 + (c - 48))
  else if c = 43 then some 62
  else if c = 47 then some 63
  else none

/-- Standard (padded) base64 decoding
(`base64.StdEncoding.DecodeString`, used by `encoding/json` for `[]byte`
fields): groups of four characters, `=`-padded tail. -/
def b64decodeStd : List Nat → Option (List Nat)
  | [] => some []
  | c1 :: c2 :: c3 :: c4 :: rest =>
      if c3 = 61 ∧ c4 = 61 ∧ rest = [] then do
        let s1 ← b64sextetStd c1
        let s2 ← b64sextetStd c2
        some [s1 * 4 + s2 / 16]
      else if c4 = 61 ∧ rest = [] then do
        let s1 ← b64sextetStd c1
        let s2 ← b64sextetStd c2
        let s3 ← b64sextetStd c3
        some [s1 * 4 + s2 / 16, s2 % 16 * 16 + s3 / 4]
      else do
        let s1 ← b64sextetStd c1
        let s2 ← b64sextetStd c2
        let s3 ← b64sextetStd c3
        let s4 ← b64sextetStd c4
        let tail ← b64decodeStd rest
        some ((s1 * 4 + s2 / 16) :: ((s2 % 16 * 16 + s3 / 4) ::
          ((s3 % 4 * 64 + s4) :: tail)))
  | _ => none

/-- Adler-32 checksum of a byte list (RFC 1950, the zlib trailer). -/
def adler32 (data : List Nat) : Nat :=
  let p := data.foldl
    (fun (ab : Nat × Nat) b =>
      ((ab.1 + b % 256) % 65521, (ab.2 + (ab.1 + b % 256) % 65521) % 65521))
    (1, 0)
  p.2 * 65536 + p.1

/-- Modelled from the spec (§4.3): the DEFLATE stream of a
no-compression zlib writer (`compress/zlib` at `zlib.NoCompression`, the
code's `DefaultCompressionLevel`, line 421): a sequence of stored blocks
(BFINAL/BTYPE byte, LEN and its one's complement NLEN little-endian, raw
bytes), at most 65535 bytes per block, last block marked final.  `fuel`
is recursion fuel (any value above `data.length` is enough). -/
def deflateStored (fuel : Nat) (data : List Nat) : List Nat :=
  match fuel with
  | 0 => []
  | fuel + 1 =>
      if data.length ≤ 65535 then
        1 :: ((data.length % 256) :: ((data.length / 256) ::
          (((65535 - data.length) % 256) ::
            (((65535 - data.length) / 256) :: data))))
      else
        0 :: 255 :: 255 :: 0 :: 0 ::
          (data.take 65535 ++ deflateStored fuel (data.drop 65535))

/-- Modelled from the spec (§4.3): compression of the serialized bytes —
zlib header `0x78 0x01`, stored DEFLATE blocks, big-endian Adler-32
trailer. -/
def zlibCompress (data : List Nat) : List Nat :=
  120 :: 1 :: (deflateStored (data.length + 1) data ++ be32 (adler32 data))

/-- Modelled from the spec (§4.3): parsing a stored-block DEFLATE stream;
returns the decompressed bytes and the remaining input, `none` on a
malformed or truncated stream (an NLEN mismatch, a truncated block, or a
block type outside the no-compression subset this model covers). -/
def inflateStored (fuel : Nat) (s : List Nat) :
    Option (List Nat × List Nat) :=
  match fuel with
  | 0 => none
  | fuel + 1 =>
      match s with
      | bfinal :: l1 :: l2 :: n1 :: n2 :: rest =>
          if n1 + 256 * n2 = 65535 - (l1 + 256 * l2) ∧
              l1 + 256 * l2 ≤ rest.length then
            if bfinal = 1 then
              some (rest.take (l1 + 256 * l2), rest.drop (l1 + 256 * l2))
            else if bfinal = 0 then
              match inflateStored fuel (rest.drop (l1 + 256 * l2)) with
              | some (d, r) => some (rest.take (l1 + 256 * l2) ++ d, r)
              | none => none
            else none
          else none
      | _ => none

/-- Modelled from the spec (§4.3): decompression (`zlib.NewReader` +
`ioutil.ReadAll`, lines 315-325): checks the zlib header, inflates, and
checks the Adler-32 trailer; any failure is an error (`none`). -/
def zlibDecompress (s : List Nat) : Option (List Nat) :=
  match s with
  | h1 :: h2 :: rest =>
      if h1 = 120 ∧ (h1 * 256 + h2) % 31 = 0 then
        match inflateStored (rest.length + 1) rest with
        | some (d, trailer) =>
            if trailer = be32 (adler32 d) then some d else none
        | none => none
      else none
  | _ => none

/-- Lowercase hex digit character of a value below 16. -/
def hexDigit (d : Nat) : Nat := if d < 10 then 48 + d else 97 + (d - 10)

/-- Hex digit value of a character (`0-9a-fA-F`). -/
def hexVal (c : Nat) : Option Nat :=
  if 48 ≤ c ∧ c ≤ 57 then some (c - 48)
  else if 97 ≤ c ∧ c ≤ 102 then some (10 + (c - 97))
  else if 65 ≤ c ∧ c ≤ 70 then some (10 + (c - 65))
  else none

/-- Modelled from the spec (§4.3): JSON string escaping of the
serializer (`encoding/json`, not in `src/`): `"` and `\` are
backslash-escaped, control bytes become `\u00XX`, everything else is
written as-is. -/
def jsonEscape : List Nat → List Nat
  | [] => []
  | b :: rest =>
      (if b = 34 then [92, 34]
       else if b = 92 then [92, 92]
       else if b < 32 then [92, 117, 48, 48, hexDigit (b / 16), hexDigit (b % 16)]
       else [b]) ++ jsonEscape rest

/-- A JSON string literal: quote, escaped bytes, quote. -/
def jsonStringLit (v : List Nat) : List Nat := 34 :: (jsonEscape v ++ [34])

/-- Comma-join a list of rendered object members. -/
def joinComma : List (List Nat) → List Nat
  | [] => []
  | [f] => f
  | f :: rest => f ++ (44 :: joinComma rest)

/-- A rendered object member: `"name":` followed by the rendered value. -/
def jsonMember (name : String) (v : List Nat) : List Nat :=
  34 :: (ascii name ++ (34 :: (58 :: v)))

/-- Modelled from the spec (§4.3): serialization of the token document
(`json.Marshal` semantics for the `userSig` struct, lines 300-308): an
object with the `TLS.*` member names in struct-field order, each field
omitted when it has its zero/empty value (`omitempty`; for the `[]byte`
fields this omits both nil and empty slices), `[]byte` fields embedded as
standard base64 strings. -/
def jsonMarshalUserSig (u : userSig) : List Nat :=
  123 :: joinComma
    ((if u.Version = [] then []
      else [jsonMember "TLS.ver" (jsonStringLit u.Version)]) ++
     (if u.Identifier = [] then []
      else [jsonMember "TLS.identifier" (jsonStringLit u.Identifier)]) ++
     (if u.SdkAppID = 0 then []
      else [jsonMember "TLS.sdkappid" (decimalNat u.SdkAppID)]) ++
     (if u.Expire = 0 then []
      else [jsonMember "TLS.expire" (decimalInt u.Expire)]) ++
     (if u.Time = 0 then []
      else [jsonMember "TLS.time" (decimalInt u.Time)]) ++
     (match u.UserBuf with
      | none => []
      | some b =>
          if b = [] then []
          else [jsonMember "TLS.userbuf" (jsonStringLit (b64encodeStd b))]) ++
     (if u.Sig = [] then []
      else [jsonMember "TLS.sig" (jsonStringLit (b64encodeStd u.Sig))])) ++
  [125]

/-- JSON string body parser: consumes up to the closing quote, handling
the escapes `\"`, `\\` and `\u00XX`; returns the decoded bytes and the
remaining input. -/
def parseJsonStringAux (fuel : Nat) (s : List Nat) :
    Option (List Nat × List Nat) :=
  match fuel with
  | 0 => none
  | fuel + 1 =>
      match s with
      | [] => none
      | b :: rest =>
          if b = 34 then some ([], rest)
          else if b = 92 then
            match rest with
            | [] => none
            | e :: rest1 =>
                if e = 34 then
                  (parseJsonStringAux fuel rest1).map
                    (fun p => (34 :: p.1, p.2))
                else if e = 92 then
                  (parseJsonStringAux fuel rest1).map
                    (fun p => (92 :: p.1, p.2))
                else if e = 117 then
                  match rest1 with
                  | h1 :: h2 :: h3 :: h4 :: rest2 =>
                      match hexVal h1, hexVal h2, hexVal h3, hexVal h4 with
                      | some d1, some d2, some d3, some d4 =>
                          if d1 * 4096 + d2 * 256 + d3 * 16 + d4 < 256 then
                            (parseJsonStringAux fuel rest2).map
                              (fun p =>
                                ((d1 * 4096 + d2 * 256 + d3 * 16 + d4) :: p.1,
                                 p.2))
                          else none
                      | _, _, _, _ => none
                  | _ => none
                else none
          else if b < 32 then none
          else
            (parseJsonStringAux fuel rest).map (fun p => (b :: p.1, p.2))

/-- Greedy decimal-digit consumer with accumulator (returns the input
unchanged past the first non-digit). -/
def parseDigitsAux (fuel : Nat) (s : List Nat) (acc : Nat) :
    Nat × List Nat :=
  match fuel with
  | 0 => (acc, s)
  | fuel + 1 =>
      match s with
      | [] => (acc, [])
      | c :: rest =>
          if 48 ≤ c ∧ c ≤ 57 then
            parseDigitsAux fuel rest (acc * 10 + (c - 48))
          else (acc, c :: rest)

/-- JSON number parser for a `uint64` field: digits only (no sign),
rejected when the value does not fit in 64 bits. -/
def parseJsonUInt64 (fuel : Nat) (s : List Nat) :
    Option (Nat × List Nat) :=
  match s with
  | [] => none
  | c :: _ =>
      if 48 ≤ c ∧ c ≤ 57 then
        match parseDigitsAux fuel s 0 with
        | (v, r) => if v < 2 ^ 64 then some (v, r) else none
      else none

/-- JSON number parser for an `int64` field: optional minus sign, digits,
rejected when the value does not fit in a signed 64-bit integer. -/
def parseJsonInt64 (fuel : Nat) (s : List Nat) :
    Option (Int × List Nat) :=
  match s with
  | [] => none
  | c0 :: s1 =>
      if c0 = 45 then
        match s1 with
        | [] => none
        | c :: _ =>
            if 48 ≤ c ∧ c ≤ 57 then
              match parseDigitsAux fuel s1 0 with
              | (v, r) =>
                  if 0 < v ∧ v ≤ 2 ^ 63 then some (-(v : Int), r) else none
            else none
      else if 48 ≤ c0 ∧ c0 ≤ 57 then
        match parseDigitsAux fuel (c0 :: s1) 0 with
        | (v, r) => if v < 2 ^ 63 then some ((v : Int), r) else none
      else none

/-- Apply one parsed object member to the document under construction:
dispatch on the member name, parse a value of that field's type
(strings for the string fields, numbers for the integer fields, standard
base64 strings for the `[]byte` fields), `none` on an unknown name or a
type mismatch. -/
def applyField (fuel : Nat) (u : userSig) (key : List Nat)
    (s : List Nat) : Option (userSig × List Nat) :=
  if key = ascii "TLS.ver" then
    match s with
    | 34 :: s1 =>
        (parseJsonStringAux fuel s1).map
          (fun p => ({ u with Version := p.1 }, p.2))
    | _ => none
  else if key = ascii "TLS.identifier" then
    match s with
    | 34 :: s1 =>
        (parseJsonStringAux fuel s1).map
          (fun p => ({ u with Identifier := p.1 }, p.2))
    | _ => none
  else if key = ascii "TLS.sdkappid" then
    match parseJsonUInt64 fuel s with
    | some (v, r) => some ({ u with SdkAppID := v }, r)
    | none => none
  else if key = ascii "TLS.expire" then
    match parseJsonInt64 fuel s with
    | some (v, r) => some ({ u with Expire := v }, r)
    | none => none
  else if key = ascii "TLS.time" then
    match parseJsonInt64 fuel s with
    | some (v, r) => some ({ u with Time := v }, r)
    | none => none
  else if key = ascii "TLS.userbuf" then
    match s with
    | 34 :: s1 =>
        match parseJsonStringAux fuel s1 with
        | some (b64, r) =>
            match b64decodeStd b64 with
            | some bytes => some ({ u with UserBuf := some bytes }, r)
            | none => none
        | none => none
    | _ => none
  else if key = ascii "TLS.sig" then
    match s with
    | 34 :: s1 =>
        match parseJsonStringAux fuel s1 with
        | some (b64, r) =>
            match b64decodeStd b64 with
            | some bytes => some ({ u with Sig := bytes }, r)
            | none => none
        | none => none
    | _ => none
  else none

/-- Parse the (non-empty) member list of the object, threading the
document under construction; a later duplicate member overwrites an
earlier one. -/
def parseFields (fuel : Nat) (u : userSig) (s : List Nat) :
    Option (userSig × List Nat) :=
  match fuel with
  | 0 => none
  | fuel + 1 =>
      match s with
      | 34 :: s1 =>
          match parseJsonStringAux fuel s1 with
          | some (key, s2) =>
              match s2 with
              | 58 :: s3 =>
                  match applyField fuel u key s3 with
                  | some (u2, s4) =>
                      match s4 with
                      | 44 :: s5 => parseFields fuel u2 s5
                      | 125 :: s5 => some (u2, s5)
                      | _ => none
                  | none => none
              | _ => none
          | none => none
      | _ => none

/-- Trailing bytes allowed after the top-level JSON value (whitespace;
the Go encoder appends a newline). -/
def isJsonWs (s : List Nat) : Bool :=
  s.all (fun c => c = 32 ∨ c = 9 ∨ c = 10 ∨ c = 13)

/-- Modelled from the spec (§4.3): parsing of the serialized document
(`json.Unmarshal` into the `userSig` struct): a JSON object whose
members are applied to a zero-valued document; absent members leave the
zero value in place.  Any malformed input is an error (`none`). -/
def jsonUnmarshalUserSig (s : List Nat) : Option userSig :=
  match s with
  | 123 :: rest =>
      match rest with
      | 125 :: rest2 => if isJsonWs rest2 then some {} else none
      | _ =>
          match parseFields (s.length + 1) {} rest with
          | some (u, rest2) => if isJsonWs rest2 then some u else none
          | none => none
  | _ => none

/-- Model of `genSig` (lines 256-278): build the document at the current time,
sign it, serialize (with the encoder's trailing newline), compress and
URL-safe-encode.  The wall-clock read (line 257) is the explicit `now`
parameter; the serializer cannot fail on these documents, so the model
returns the token directly. -/
def genSig (sdkappid : Int) (key identifier : List Nat) (expire : Int)
    (userbuf : Option (List Nat)) (now : Int) : List Nat :=
  let sigDoc : userSig :=
    { Version := ascii "2.0"
      Identifier := identifier
      SdkAppID := (sdkappid % 2 ^ 64).toNat
      Expire := expire
      Time := now
      UserBuf := userbuf
      Sig := [] }
  let signed : userSig := { sigDoc with Sig := sigDoc.sign key }
  b64encodeUrl (zlibCompress (jsonMarshalUserSig signed ++ [10]))

/-- Model of `GenUserSig` (lines 37-39). -/
def GenUserSig (sdkappid : Int) (key userid : List Nat) (expire : Int)
    (now : Int) : List Nat :=
  genSig sdkappid key userid expire none now

/-- Model of `GenUserSigWithBuf` (lines 41-43). -/
def GenUserSigWithBuf (sdkappid : Int) (key userid : List Nat)
    (expire : Int) (buf : Option (List Nat)) (now : Int) : List Nat :=
  genSig sdkappid key userid expire buf now

/-- Model of `newUserSig` (lines 310-331): base64url-decode, zlib-decompress,
JSON-parse.  The first two failures propagate as errors (`none`); a JSON
parse failure is swallowed — the code returns `userSig{}, nil`
(line 328), a zero-valued document with a nil error. -/
def newUserSig (usersig : List Nat) : Option userSig :=
  match b64decodeUrl usersig with
  | none => none
  | some b =>
      match zlibDecompress b with
      | none => none
      | some data =>
          match jsonUnmarshalUserSig data with
          | none => some {}
          | some sig => some sig

/-- Model of `VerifyUserSig` (lines 282-288). -/
def VerifyUserSig (sdkappid : Nat) (key userid usersig : List Nat)
    (now : Int) : Option VerifyError :=
  match newUserSig usersig with
  | none => some .DecodeError
  | some sig => sig.verify sdkappid key userid now none

/-- Model of `VerifyUserSigWithBuf` (lines 292-298). -/
def VerifyUserSigWithBuf (sdkappid : Nat) (key userid usersig : List Nat)
    (now : Int) (userbuf : Option (List Nat)) : Option VerifyError :=
  match newUserSig usersig with
  | none => some .DecodeError
  | some sig => sig.verify sdkappid key userid now userbuf


/-- The spec's wording of the canonical message (spec §4.2): the
concatenation, in this exact order, of the five tagged lines, the
userbuf line present only when `userBuf` is present. -/
def specSignMessage (identifier : List Nat) (applicationId : Nat)
    (issuedAt expireSeconds : Int) (userBuf : Option (List Nat)) : List Nat :=
  ascii "TLS.identifier:" ++ identifier ++ ascii "\n" ++
  ascii "TLS.sdkappid:" ++ decimalNat applicationId ++ ascii "\n" ++
  ascii "TLS.time:" ++ decimalInt issuedAt ++ ascii "\n" ++
  ascii "TLS.expire:" ++ decimalInt expireSeconds ++ ascii "\n" ++
  (match userBuf with
   | some b => ascii "TLS.userbuf:" ++ b64encodeStd b ++ ascii "\n"
   | none => [])

structure JField where
  name : String
  val : List Nat
  upd : userSig → userSig

def renderJField (m : JField) : List Nat := jsonMember m.name m.val

def applyJFields (ms : List JField) (u : userSig) : userSig :=
  ms.foldl (fun d m => m.upd d) u

def JFieldOk (m : JField) : Prop :=
  isBytes (ascii m.name) ∧
  jsonEscape (ascii m.name) = ascii m.name ∧
  ∀ g u X, (m.val ++ X).length < g →
    (X.head? = some 44 ∨ X.head? = some 125) →
    applyField g u (ascii m.name) (m.val ++ X) = some (m.upd u, X)

def verField (v : List Nat) : JField :=
  ⟨"TLS.ver", jsonStringLit v, fun d => { d with Version := v }⟩

def idField (v : List Nat) : JField :=
  ⟨"TLS.identifier", jsonStringLit v, fun d => { d with Identifier := v }⟩

def appField (n : Nat) : JField :=
  ⟨"TLS.sdkappid", decimalNat n, fun d => { d with SdkAppID := n }⟩

def expField (i : Int) : JField :=
  ⟨"TLS.expire", decimalInt i, fun d => { d with Expire := i }⟩

def timeField (i : Int) : JField :=
  ⟨"TLS.time", decimalInt i, fun d => { d with Time := i }⟩

def bufField (b : List Nat) : JField :=
  ⟨"TLS.userbuf", jsonStringLit (b64encodeStd b),
    fun d => { d with UserBuf := some b }⟩

def sigField (b : List Nat) : JField :=
  ⟨"TLS.sig", jsonStringLit (b64encodeStd b), fun d => { d with Sig := b }⟩

def memberFields (u : userSig) : List JField :=
  (if u.Version = [] then [] else [verField u.Version]) ++
  (if u.Identifier = [] then [] else [idField u.Identifier]) ++
  (if u.SdkAppID = 0 then [] else [appField u.SdkAppID]) ++
  (if u.Expire = 0 then [] else [expField u.Expire]) ++
  (if u.Time = 0 then [] else [timeField u.Time]) ++
  (match u.UserBuf with
   | none => []
   | some b => if b = [] then [] else [bufField b]) ++
  (if u.Sig = [] then [] else [sigField u.Sig])

/-- The user-buffer presence that survives serialization: `omitempty`
drops an empty (nil or zero-length) buffer, so unpacking yields `none`
for it. -/
def normBuf : Option (List Nat) → Option (List Nat)
  | none => none
  | some b => if b = [] then none else some b

theorem mask_shift_byte (v k : Nat) :
    (v &&& (255 <<< k)) >>> k = v / 2 ^ k % 256 := by
  rw [show v / 2 ^ k % 256 = (v >>> k) &&& 255 by
    rw [Nat.and_pow_two_sub_one_eq_mod _ 8, Nat.shiftRight_eq_div_pow]]
  apply Nat.eq_of_testBit_eq
  intro i
  rw [Nat.testBit_shiftRight, Nat.testBit_and, Nat.testBit_shiftLeft,
      Nat.testBit_and, Nat.testBit_shiftRight]
  simp

theorem be32masked_eq_be32 (v : Nat) : be32masked v = be32 v := by
  have h24 : (v &&& 0xFF000000) >>> 24 = v / 2 ^ 24 % 256 := by
    rw [show (0xFF000000 : Nat) = 255 <<< 24 by decide]; exact mask_shift_byte v 24
  have h16 : (v &&& 0x00FF0000) >>> 16 = v / 2 ^ 16 % 256 := by
    rw [show (0x00FF0000 : Nat) = 255 <<< 16 by decide]; exact mask_shift_byte v 16
  have h8 : (v &&& 0x0000FF00) >>> 8 = v / 2 ^ 8 % 256 := by
    rw [show (0x0000FF00 : Nat) = 255 <<< 8 by decide]; exact mask_shift_byte v 8
  have h0 : v &&& 0x000000FF = v % 256 := by
    have := Nat.and_pow_two_sub_one_eq_mod v 8
    norm_num at this ⊢; exact this
  simp only [be32masked, be32, h24, h16, h8, h0]

theorem len16_bytes (n : Nat) :
    [(n &&& 0xFF00) >>> 8, n &&& 0x00FF] = be16 n := by
  have h8 : (n &&& 0xFF00) >>> 8 = n / 2 ^ 8 % 256 := by
    rw [show (0xFF00 : Nat) = 255 <<< 8 by decide]; exact mask_shift_byte n 8
  have h0 : n &&& 0x00FF = n % 256 := by
    have := Nat.and_pow_two_sub_one_eq_mod n 8
    norm_num at this ⊢; exact this
  simp only [be16, h8, h0]

theorem genUserBuf_layout (account : List Nat) (dwSdkappid : Int)
    (dwAuthID : Nat) (dwExpTime : Int) (dwPrivilegeMap dwAccountType : Nat)
    (roomStr : List Nat) (now : Int) :
    genUserBuf account dwSdkappid dwAuthID dwExpTime dwPrivilegeMap
      dwAccountType roomStr now =
    specUserBufLayout account (u32ofInt dwSdkappid) dwAuthID
      (int64Bits (now + dwExpTime)) dwPrivilegeMap dwAccountType roomStr := by
  simp only [genUserBuf, specUserBufLayout, be32masked_eq_be32, len16_bytes]
  by_cases h : roomStr.length = 0
  · simp [h]
  · simp [h, Nat.pos_of_ne_zero h]

theorem genUserBuf_length (account : List Nat) (dwSdkappid : Int)
    (dwAuthID : Nat) (dwExpTime : Int) (dwPrivilegeMap dwAccountType : Nat)
    (roomStr : List Nat) (now : Int) :
    (genUserBuf account dwSdkappid dwAuthID dwExpTime dwPrivilegeMap
      dwAccountType roomStr now).length =
    1 + 2 + account.length + 20 +
      (if roomStr.length = 0 then 0 else 2 + roomStr.length) := by
  rw [genUserBuf_layout]
  by_cases h : roomStr.length = 0 <;>
    simp [specUserBufLayout, be16, be32, h] <;> omega

theorem hmacSha256_msg_inj (key m1 m2 : List Nat)
    (h : hmacSha256 key m1 = hmacSha256 key m2) : m1 = m2 := by
  simp only [hmacSha256, List.append_assoc] at h
  exact List.append_cancel_left (List.append_cancel_left h)

/-- Claim C8: the user-buffer encoder produces length
`1 + 2 + len(identity) + 20` (numeric-resource variant, empty
resourceString) or `1 + 2 + len(identity) + 20 + 2 + len(resourceString)`
(string-resource variant); the first byte is its format version 0
resp. 1; and the fields are laid out in the order formatVersion,
identityLength, identity, applicationId, resourceId, absoluteExpiry,
privilegeBitmap, accountTypeTag, then (variant 1 only)
resourceStringLength and resourceString. -/
theorem userbuf_layout_and_length (account : List Nat) (dwSdkappid : Int)
    (dwAuthID : Nat) (dwExpTime : Int) (dwPrivilegeMap dwAccountType : Nat)
    (roomStr : List Nat) (now : Int) :
    (genUserBuf account dwSdkappid dwAuthID dwExpTime dwPrivilegeMap
        dwAccountType roomStr now).length =
      (if roomStr.length = 0 then 1 + 2 + account.length + 20
       else 1 + 2 + account.length + 20 + 2 + roomStr.length) ∧
    (genUserBuf account dwSdkappid dwAuthID dwExpTime dwPrivilegeMap
        dwAccountType roomStr now).head? =
      some (if roomStr.length = 0 then 0 else 1) ∧
    genUserBuf account dwSdkappid dwAuthID dwExpTime dwPrivilegeMap
        dwAccountType roomStr now =
      specUserBufLayout account (u32ofInt dwSdkappid) dwAuthID
        (int64Bits (now + dwExpTime)) dwPrivilegeMap dwAccountType roomStr := by
  refine ⟨?_, ?_, genUserBuf_layout ..⟩
  · rw [genUserBuf_length]
    by_cases h : roomStr.length = 0 <;> simp [h] <;> omega
  · rw [genUserBuf_layout]
    by_cases h : roomStr.length = 0 <;> simp [specUserBufLayout, h]

theorem be16_mod (n : Nat) : be16 (n % 2 ^ 16) = be16 n := by
  simp only [be16, List.cons.injEq, and_true]
  omega

theorem be32_mod (v : Nat) : be32 (v % 2 ^ 32) = be32 v := by
  simp only [be32, List.cons.injEq, and_true]
  omega

theorem int64Bits_low32 (x : Int) :
    be32 (int64Bits x) = be32 ((x % 2 ^ 32).toNat) := by
  have h : int64Bits x % 2 ^ 32 = (x % 2 ^ 32).toNat := by
    have h1 : (x % 2 ^ 64) % 2 ^ 32 = x % 2 ^ 32 :=
      Int.emod_emod_of_dvd x (by norm_num)
    have hnn : 0 ≤ x % 2 ^ 64 := Int.emod_nonneg x (by norm_num)
    simp only [int64Bits]
    omega
  rw [← be32_mod (int64Bits x), h]

theorem drop_take_middle {α : Type} (l1 l2 l3 : List α) (n m : Nat)
    (h1 : l1.length = n) (h2 : l2.length = m) :
    ((l1 ++ (l2 ++ l3)).drop n).take m = l2 := by
  rw [List.drop_left' h1, List.take_left' h2]

/-- Claim C9: every multi-byte integer of the user-buffer record is
big-endian and truncated to its width: the applicationId bytes are the
caller's (possibly negative or oversized) value reduced modulo `2^32`,
the absoluteExpiry bytes are the low 32 bits of `now + durationSeconds`,
and the identity-length bytes are the identity length reduced to its low
16 bits. -/
theorem userbuf_truncation (account : List Nat) (dwSdkappid : Int)
    (dwAuthID : Nat) (dwExpTime : Int) (dwPrivilegeMap dwAccountType : Nat)
    (roomStr : List Nat) (now : Int) :
    ((genUserBuf account dwSdkappid dwAuthID dwExpTime dwPrivilegeMap
        dwAccountType roomStr now).drop 1).take 2 =
      be16 (account.length % 2 ^ 16) ∧
    ((genUserBuf account dwSdkappid dwAuthID dwExpTime dwPrivilegeMap
        dwAccountType roomStr now).drop (3 + account.length)).take 4 =
      be32 ((dwSdkappid % 2 ^ 32).toNat) ∧
    ((genUserBuf account dwSdkappid dwAuthID dwExpTime dwPrivilegeMap
        dwAccountType roomStr now).drop (11 + account.length)).take 4 =
      be32 (((now + dwExpTime) % 2 ^ 32).toNat) := by
  rw [genUserBuf_layout]
  have hver : (if roomStr.length = 0 then ([0] : List Nat) else [1]).length
      = 1 := by
    by_cases h : roomStr.length = 0 <;> simp [h]
  refine ⟨?_, ?_, ?_⟩
  · rw [be16_mod,
      show specUserBufLayout account (u32ofInt dwSdkappid) dwAuthID
        (int64Bits (now + dwExpTime)) dwPrivilegeMap dwAccountType roomStr =
        (if roomStr.length = 0 then [0] else [1]) ++
          (be16 account.length ++ (account ++
            (be32 (u32ofInt dwSdkappid) ++ (be32 dwAuthID ++
              (be32 (int64Bits (now + dwExpTime)) ++ (be32 dwPrivilegeMap ++
                (be32 dwAccountType ++
                  (if roomStr.length = 0 then []
                   else be16 roomStr.length ++ roomStr)))))))) from
        by simp [specUserBufLayout, List.append_assoc]]
    exact drop_take_middle _ _ _ 1 2 hver (by simp [be16])
  · rw [show specUserBufLayout account (u32ofInt dwSdkappid) dwAuthID
        (int64Bits (now + dwExpTime)) dwPrivilegeMap dwAccountType roomStr =
        ((if roomStr.length = 0 then [0] else [1]) ++ be16 account.length ++
          account) ++
          (be32 (u32ofInt dwSdkappid) ++ (be32 dwAuthID ++
            (be32 (int64Bits (now + dwExpTime)) ++ (be32 dwPrivilegeMap ++
              (be32 dwAccountType ++
                (if roomStr.length = 0 then []
                 else be16 roomStr.length ++ roomStr)))))) from
        by simp [specUserBufLayout, List.append_assoc]]
    exact drop_take_middle _ _ _ (3 + account.length) 4
      (by simp only [List.length_append, hver, be16, List.length_cons,
            List.length_nil]; try omega) (by simp [be32])
  · rw [← int64Bits_low32 (now + dwExpTime),
      show specUserBufLayout account (u32ofInt dwSdkappid) dwAuthID
        (int64Bits (now + dwExpTime)) dwPrivilegeMap dwAccountType roomStr =
        ((if roomStr.length = 0 then [0] else [1]) ++ be16 account.length ++
          account ++ be32 (u32ofInt dwSdkappid) ++ be32 dwAuthID) ++
          (be32 (int64Bits (now + dwExpTime)) ++ (be32 dwPrivilegeMap ++
            (be32 dwAccountType ++
              (if roomStr.length = 0 then []
               else be16 roomStr.length ++ roomStr)))) from
        by simp [specUserBufLayout, List.append_assoc]]
    exact drop_take_middle _ _ _ (11 + account.length) 4
      (by simp only [List.length_append, hver, be16, be32, List.length_cons,
            List.length_nil]; try omega) (by simp [be32])

/-- Claim C2: the sign operation is exactly the keyed MAC over the
concatenation of the tagged lines in the spec's fixed order, with the
userbuf line (standard base64) present only when the buffer is present;
the signature field itself is never part of the signed message. -/
theorem sign_is_hmac_of_canonical_message (key : List Nat) (u : userSig) :
    u.sign key =
      hmacSha256 key
        (specSignMessage u.Identifier u.SdkAppID u.Time u.Expire u.UserBuf) ∧
    (∀ s : List Nat, userSig.sign { u with Sig := s } key = u.sign key) := by
  constructor
  · simp [userSig.sign, userSig.signedMessage, specSignMessage,
      sigIdentifierTag, sigSdkAppIDTag, sigTimeTag, sigExpireTag,
      sigUserBufTag, sigEnter]
  · intro s
    simp [userSig.sign, userSig.signedMessage]

theorem bufCheck_not_expired (a b : Option (List Nat)) :
    ¬bufCheck a b = some .ErrExpired := by
  rcases a with _ | eb <;> rcases b with _ | db
  · simp [bufCheck]
  · simp [bufCheck]
  · simp [bufCheck]
  · simp only [bufCheck]
    split_ifs <;> simp

/-- Claim C3: verification runs its checks in the fixed order
application id, identifier, expiration, user buffer, signature; it
short-circuits at the first failing check with that check's specific
error, succeeds (returns `none`, the `nil` error) iff all checks pass,
and in particular a simultaneous application-id and identifier mismatch
reports the application-id mismatch error. -/
theorem verify_first_failing_check (u : userSig) (sdkappid : Nat)
    (key userid : List Nat) (now : Int) (userbuf : Option (List Nat)) :
    (¬sdkappid = u.SdkAppID →
      u.verify sdkappid key userid now userbuf = some .ErrSdkAppIDNotMatch) ∧
    (sdkappid = u.SdkAppID → ¬userid = u.Identifier →
      u.verify sdkappid key userid now userbuf =
        some .ErrIdentifierNotMatch) ∧
    (sdkappid = u.SdkAppID → userid = u.Identifier →
      now > wrap64 (u.Time + u.Expire) →
      u.verify sdkappid key userid now userbuf = some .ErrExpired) ∧
    (∀ e, sdkappid = u.SdkAppID → userid = u.Identifier →
      ¬now > wrap64 (u.Time + u.Expire) →
      bufCheck userbuf u.UserBuf = some e →
      u.verify sdkappid key userid now userbuf = some e) ∧
    (sdkappid = u.SdkAppID → userid = u.Identifier →
      ¬now > wrap64 (u.Time + u.Expire) →
      bufCheck userbuf u.UserBuf = none → ¬u.sign key = u.Sig →
      u.verify sdkappid key userid now userbuf = some .ErrSigNotMatch) ∧
    (u.verify sdkappid key userid now userbuf = none ↔
      (sdkappid = u.SdkAppID ∧ userid = u.Identifier ∧
       now ≤ wrap64 (u.Time + u.Expire) ∧ bufCheck userbuf u.UserBuf = none ∧
       u.sign key = u.Sig)) ∧
    (¬sdkappid = u.SdkAppID → ¬userid = u.Identifier →
      u.verify sdkappid key userid now userbuf = some .ErrSdkAppIDNotMatch) := by
  refine ⟨?_, ?_, ?_, ?_, ?_, ?_, ?_⟩
  · intro h; simp [userSig.verify, h]
  · intro h1 h2; simp [userSig.verify, h1, h2]
  · intro h1 h2 h3; simp [userSig.verify, h1, h2, h3]
  · intro e h1 h2 h3 hb; simp [userSig.verify, h1, h2, h3, hb]
  · intro h1 h2 h3 hb hs; simp [userSig.verify, h1, h2, h3, hb, hs]
  · constructor
    · intro hv
      by_cases h1 : sdkappid = u.SdkAppID
      · by_cases h2 : userid = u.Identifier
        · by_cases h3 : now > wrap64 (u.Time + u.Expire)
          · simp [userSig.verify, h1, h2, h3] at hv
          · rcases hb : bufCheck userbuf u.UserBuf with _ | e
            · by_cases hs : u.sign key = u.Sig
              · exact ⟨h1, h2, not_lt.1 h3, rfl, hs⟩
              · simp [userSig.verify, h1, h2, h3, hb, hs] at hv
            · simp [userSig.verify, h1, h2, h3, hb] at hv
        · simp [userSig.verify, h1, h2] at hv
      · simp [userSig.verify, h1] at hv
    · rintro ⟨h1, h2, h3, hb, hs⟩
      simp [userSig.verify, h1, h2, not_lt.2 h3, hb, hs]
  · intro h _; simp [userSig.verify, h]

theorem verify_first_failing_check_witness :
    userSig.verify { SdkAppID := 7, Identifier := [97] } 5 [] [98] 0 none =
      some .ErrSdkAppIDNotMatch :=
  (verify_first_failing_check { SdkAppID := 7, Identifier := [97] } 5 [] [98]
    0 none).2.2.2.2.2.2 (by decide) (by decide)

/-- Claim C4 (amended): with the other expected fields matching, the
expiration check passes — the result is never `ErrExpired` — at every
`now ≤ wrap64 (t + e)` and fails with `ErrExpired` at every
`now > wrap64 (t + e)`, where the Go `int64` sum `t + e` wraps around;
whenever `t + e` does not overflow `int64`, `wrap64 (t + e) = t + e`,
which is exactly the claimed boundary (valid at `now = t + e`, expired
at `now = t + e + 1`). -/
theorem expiry_boundary (u : userSig) (sdkappid : Nat)
    (key userid : List Nat) (userbuf : Option (List Nat)) (now : Int)
    (happ : sdkappid = u.SdkAppID) (hid : userid = u.Identifier) :
    (now ≤ wrap64 (u.Time + u.Expire) →
      ¬u.verify sdkappid key userid now userbuf = some .ErrExpired) ∧
    (now > wrap64 (u.Time + u.Expire) →
      u.verify sdkappid key userid now userbuf = some .ErrExpired) ∧
    (-(2 ^ 63) ≤ u.Time + u.Expire → u.Time + u.Expire < 2 ^ 63 →
      wrap64 (u.Time + u.Expire) = u.Time + u.Expire) := by
  refine ⟨?_, ?_, ?_⟩
  · intro h
    simp only [userSig.verify, happ, hid, not_lt.2 h]
    rcases hb : bufCheck userbuf u.UserBuf with _ | e
    · by_cases hs : u.sign key = u.Sig <;> simp [hs, not_lt.2 h]
    · have := bufCheck_not_expired userbuf u.UserBuf
      simp [not_lt.2 h, hb] at this ⊢
      intro hcontra
      exact this (hcontra ▸ rfl)
  · intro h
    simp [userSig.verify, happ, hid, h]
  · intro hlo hhi
    simp only [wrap64]
    omega

theorem expiry_boundary_witness :
    userSig.verify { Time := 100, Expire := 50 } 0 [] [] 151 none =
      some .ErrExpired :=
  (expiry_boundary { Time := 100, Expire := 50 } 0 [] [] none 151 rfl
    rfl).2.1 (by decide)

/-- Claim C4, counterexample to the literal statement: a document with
`issuedAt = 2^62` and `expireSeconds = 2^62` (all other expected fields
matching) is rejected as expired at `now = 0`, although `now ≤ t + e`
holds over the integers: the Go `int64` sum `t + e` overflows and wraps
to `-2^63`. -/
theorem expiry_boundary_overflow_counterexample :
    (0 : Int) ≤ 2 ^ 62 + 2 ^ 62 ∧
    userSig.verify { Time := 2 ^ 62, Expire := 2 ^ 62 } 0 [] [] 0 none =
      some .ErrExpired := by
  constructor
  · norm_num
  · decide

/-- Claim C6: once the earlier checks pass, verification fails with the
userbuf-type-mismatch error whenever exactly one of the expected buffer
and the document's buffer is present (in both directions), and with the
userbuf-mismatch error when both are present but not byte-equal. -/
theorem userbuf_presence_checks (u : userSig) (sdkappid : Nat)
    (key userid : List Nat) (now : Int) (userbuf : Option (List Nat))
    (happ : sdkappid = u.SdkAppID) (hid : userid = u.Identifier)
    (hnotexp : ¬now > wrap64 (u.Time + u.Expire)) :
    (∀ b, userbuf = some b → u.UserBuf = none →
      u.verify sdkappid key userid now userbuf =
        some .ErrUserBufTypeNotMatch) ∧
    (∀ b, userbuf = none → u.UserBuf = some b →
      u.verify sdkappid key userid now userbuf =
        some .ErrUserBufTypeNotMatch) ∧
    (∀ eb db, userbuf = some eb → u.UserBuf = some db → ¬eb = db →
      u.verify sdkappid key userid now userbuf = some .ErrUserBufNotMatch) := by
  refine ⟨?_, ?_, ?_⟩
  · intro b hx hd
    simp [userSig.verify, bufCheck, happ, hid, hnotexp, hx, hd]
  · intro b hx hd
    simp [userSig.verify, bufCheck, happ, hid, hnotexp, hx, hd]
  · intro eb db hx hd hne
    simp [userSig.verify, bufCheck, happ, hid, hnotexp, hx, hd, hne]

theorem userbuf_presence_checks_witness :
    userSig.verify { } 0 [] [] 0 (some [1]) = some .ErrUserBufTypeNotMatch :=
  ((userbuf_presence_checks { } 0 [] [] 0 (some [1]) rfl rfl
    (by decide)).1) [1] rfl rfl

theorem signedMessage_length_nil_vs_empty (u1 u2 : userSig)
    (hid : u1.Identifier = u2.Identifier) (happ : u1.SdkAppID = u2.SdkAppID)
    (ht : u1.Time = u2.Time) (he : u1.Expire = u2.Expire)
    (h1 : u1.UserBuf = none) (h2 : u2.UserBuf = some []) :
    ¬u1.signedMessage = u2.signedMessage := by
  intro heq
  have hl := congrArg List.length heq
  have htag : sigUserBufTag.length = 12 := by decide
  have hnl : sigEnter.length = 1 := by decide
  simp only [userSig.signedMessage, h1, h2, hid, happ, ht, he,
    List.length_append] at hl
  simp only [b64encodeStd, List.length_nil, htag, hnl] at hl
  omega

/-- Claim C7: for every key, two documents agreeing on all field values
except that one has a nil user buffer and the other an empty but present
(non-nil) one produce different MACs under sign, and the verifier treats
them differently: a verifier expecting no buffer passes the buffer check
on the nil-buffer document but rejects the empty-buffer document with
the userbuf-type-mismatch error. -/
theorem nil_vs_empty_userbuf (key : List Nat) (u1 u2 : userSig)
    (hid : u1.Identifier = u2.Identifier) (happ : u1.SdkAppID = u2.SdkAppID)
    (ht : u1.Time = u2.Time) (he : u1.Expire = u2.Expire)
    (h1 : u1.UserBuf = none) (h2 : u2.UserBuf = some []) :
    ¬u1.sign key = u2.sign key ∧
    bufCheck none u1.UserBuf = none ∧
    bufCheck none u2.UserBuf = some .ErrUserBufTypeNotMatch ∧
    (∀ (sdkappid : Nat) (userid : List Nat) (now : Int),
      sdkappid = u2.SdkAppID → userid = u2.Identifier →
      ¬now > wrap64 (u2.Time + u2.Expire) →
      u2.verify sdkappid key userid now none =
        some .ErrUserBufTypeNotMatch) := by
  refine ⟨?_, by simp [bufCheck, h1], by simp [bufCheck, h2], ?_⟩
  · intro hsig
    exact signedMessage_length_nil_vs_empty u1 u2 hid happ ht he h1 h2
      (hmacSha256_msg_inj key _ _ hsig)
  · intro sdkappid userid now hx hy hz
    simp [userSig.verify, bufCheck, hx, hy, hz, h2]

theorem nil_vs_empty_userbuf_witness :
    ¬(userSig.sign
        { Identifier := [97], SdkAppID := 1, Time := 5, Expire := 10 }
        [107] =
      userSig.sign
        { Identifier := [97], SdkAppID := 1, Time := 5, Expire := 10,
          UserBuf := some [] }
        [107]) :=
  (nil_vs_empty_userbuf [107]
    { Identifier := [97], SdkAppID := 1, Time := 5, Expire := 10 }
    { Identifier := [97], SdkAppID := 1, Time := 5, Expire := 10,
      UserBuf := some [] } rfl rfl rfl rfl rfl rfl).1

theorem b64sextetUrl_char : ∀ s, s < 64 →
    b64sextetUrl (b64charUrl s) = some s := by decide

theorem b64url_roundtrip (l : List Nat) (hb : isBytes l) :
    b64decodeUrl (b64encodeUrl l) = some l := by
  match l with
  | [] => rfl
  | [b1] =>
      have h1 : b1 < 256 := hb b1 (by simp)
      simp only [b64encodeUrl, b64decodeUrl]
      rw [b64sextetUrl_char _ (by omega), b64sextetUrl_char _ (by omega)]
      simp only [Option.bind_eq_bind, Option.some_bind]
      congr 1
      congr 1
      omega
  | [b1, b2] =>
      have h1 : b1 < 256 := hb b1 (by simp)
      have h2 : b2 < 256 := hb b2 (by simp)
      simp only [b64encodeUrl, b64decodeUrl]
      rw [b64sextetUrl_char _ (by omega), b64sextetUrl_char _ (by omega),
          b64sextetUrl_char _ (by omega)]
      simp only [Option.bind_eq_bind, Option.some_bind]
      congr 1
      congr 1
      · omega
      · congr 1; omega
  | b1 :: b2 :: b3 :: rest =>
      have h1 : b1 < 256 := hb b1 (by simp)
      have h2 : b2 < 256 := hb b2 (by simp)
      have h3 : b3 < 256 := hb b3 (by simp)
      have hrest : isBytes rest := by
        intro b hbm; exact hb b (by simp [hbm])
      have hih := b64url_roundtrip rest hrest
      simp only [b64encodeUrl, b64decodeUrl]
      rw [b64sextetUrl_char _ (by omega), b64sextetUrl_char _ (by omega),
          b64sextetUrl_char _ (by omega), b64sextetUrl_char _ (by omega)]
      simp only [Option.bind_eq_bind, Option.some_bind]
      rw [hih]
      simp only [Option.some_bind]
      congr 1
      congr 1
      · omega
      · congr 1
        · omega
        · congr 1; omega

theorem b64sextetStd_char : ∀ s, s < 64 →
    b64sextetStd (b64charStd s) = some s := by decide

theorem b64charStd_ne_61 : ∀ s, s < 64 → ¬b64charStd s = 61 := by decide

theorem b64std_roundtrip (l : List Nat) (hb : isBytes l) :
    b64decodeStd (b64encodeStd l) = some l := by
  match l with
  | [] => rfl
  | [b1] =>
      have h1 : b1 < 256 := hb b1 (by simp)
      simp only [b64encodeStd, b64decodeStd]
      rw [if_pos (by simp)]
      rw [b64sextetStd_char _ (by omega), b64sextetStd_char _ (by omega)]
      simp only [Option.bind_eq_bind, Option.some_bind]
      congr 1
      congr 1
      omega
  | [b1, b2] =>
      have h1 : b1 < 256 := hb b1 (by simp)
      have h2 : b2 < 256 := hb b2 (by simp)
      simp only [b64encodeStd, b64decodeStd]
      rw [if_neg (by
        intro hcontra
        exact b64charStd_ne_61 _ (by omega) hcontra.1)]
      rw [if_pos (by simp)]
      rw [b64sextetStd_char _ (by omega), b64sextetStd_char _ (by omega),
          b64sextetStd_char _ (by omega)]
      simp only [Option.bind_eq_bind, Option.some_bind]
      congr 1
      congr 1
      · omega
      · congr 1; omega
  | b1 :: b2 :: b3 :: rest =>
      have h1 : b1 < 256 := hb b1 (by simp)
      have h2 : b2 < 256 := hb b2 (by simp)
      have h3 : b3 < 256 := hb b3 (by simp)
      have hrest : isBytes rest := by
        intro b hbm; exact hb b (by simp [hbm])
      have hih := b64std_roundtrip rest hrest
      simp only [b64encodeStd, b64decodeStd]
      rw [if_neg (by
        intro hcontra
        exact b64charStd_ne_61 _ (by omega) hcontra.1)]
      rw [if_neg (by
        intro hcontra
        exact b64charStd_ne_61 _ (by omega) hcontra.1)]
      rw [b64sextetStd_char _ (by omega), b64sextetStd_char _ (by omega),
          b64sextetStd_char _ (by omega), b64sextetStd_char _ (by omega)]
      simp only [Option.bind_eq_bind, Option.some_bind]
      rw [hih]
      simp only [Option.some_bind]
      congr 1
      congr 1
      · omega
      · congr 1
        · omega
        · congr 1; omega

theorem inflate_deflate (d rest : List Nat) (fD fI : Nat)
    (hD : d.length < fD)
    (hI : (deflateStored fD d ++ rest).length < fI) :
    inflateStored fI (deflateStored fD d ++ rest) = some (d, rest) := by
  obtain ⟨fD', rfl⟩ : ∃ f, fD = f + 1 := ⟨fD - 1, by omega⟩
  obtain ⟨fI', rfl⟩ : ∃ f, fI = f + 1 := ⟨fI - 1, by omega⟩
  by_cases h : d.length ≤ 65535
  · simp only [deflateStored, if_pos h, List.cons_append] at hI ⊢
    simp only [inflateStored]
    have hL : d.length % 256 + 256 * (d.length / 256) = d.length := by omega
    rw [if_pos (by
      refine ⟨by omega, ?_⟩
      rw [hL, List.length_append]; omega)]
    rw [if_pos trivial, hL, List.take_left, List.drop_left]
  · simp only [deflateStored, if_neg h, List.cons_append,
      List.append_assoc] at hI ⊢
    simp only [inflateStored]
    have htk : (d.take 65535).length = 65535 := by
      rw [List.length_take]; omega
    simp only [List.length_cons, List.length_append] at hI
    rw [if_pos (by
      refine ⟨by norm_num, ?_⟩
      rw [List.length_append, htk]; omega)]
    have h65 : 255 + 256 * 255 = 65535 := by norm_num
    rw [if_neg (by omega), if_pos trivial, h65,
      List.drop_left' htk,
      inflate_deflate (d.drop 65535) rest fD' fI'
        (by rw [List.length_drop]; omega)
        (by rw [List.length_append]; omega)]
    show some (List.take 65535 (List.take 65535 d ++
        (deflateStored fD' (List.drop 65535 d) ++ rest)) ++
      List.drop 65535 d, rest) = some (d, rest)
    rw [List.take_left' htk, List.take_append_drop]
termination_by d.length
decreasing_by rw [List.length_drop]; omega

theorem zlib_roundtrip (d : List Nat) :
    zlibDecompress (zlibCompress d) = some d := by
  simp only [zlibCompress, zlibDecompress]
  rw [if_pos (by norm_num)]
  rw [inflate_deflate d (be32 (adler32 d)) (d.length + 1) _ (by omega)
    (by omega)]
  simp

theorem decimalNatAux_fuel (n f1 f2 : Nat) (h1 : n < f1) (h2 : n < f2) :
    decimalNatAux f1 n = decimalNatAux f2 n := by
  obtain ⟨g1, rfl⟩ : ∃ g, f1 = g + 1 := ⟨f1 - 1, by omega⟩
  obtain ⟨g2, rfl⟩ : ∃ g, f2 = g + 1 := ⟨f2 - 1, by omega⟩
  simp only [decimalNatAux]
  by_cases h : n < 10
  · simp [h]
  · simp only [if_neg h]
    rw [decimalNatAux_fuel (n / 10) g1 g2 (by omega) (by omega)]
termination_by n

theorem decimalNat_unfold (n : Nat) :
    decimalNat n =
      if n < 10 then [48 + n] else decimalNat (n / 10) ++ [48 + n % 10] := by
  show decimalNatAux (n + 1) n = _
  simp only [decimalNatAux]
  by_cases h : n < 10
  · simp [h]
  · simp only [if_neg h]
    rw [decimalNatAux_fuel (n / 10) n (n / 10 + 1) (by omega) (by omega)]
    rfl

theorem decimalNat_digits (n : Nat) :
    ∀ c ∈ decimalNat n, 48 ≤ c ∧ c ≤ 57 := by
  rw [decimalNat_unfold]
  by_cases h : n < 10
  · simp [h]; omega
  · simp only [if_neg h, List.mem_append, List.mem_singleton]
    intro c hc
    rcases hc with hc | hc
    · exact decimalNat_digits (n / 10) c hc
    · subst hc; omega
termination_by n
decreasing_by omega

theorem decimalNat_ne_nil (n : Nat) : ¬decimalNat n = [] := by
  rw [decimalNat_unfold]
  by_cases h : n < 10 <;> simp [h]

theorem decimalNat_foldl (n : Nat) :
    List.foldl (fun a c => a * 10 + (c - 48)) 0 (decimalNat n) = n := by
  rw [decimalNat_unfold]
  by_cases h : n < 10
  · simp [h]
  · simp only [if_neg h, List.foldl_append]
    rw [decimalNat_foldl (n / 10)]
    simp
    omega
termination_by n
decreasing_by omega

theorem parseDigitsAux_spec (ds : List Nat)
    (hds : ∀ c ∈ ds, 48 ≤ c ∧ c ≤ 57) :
    ∀ fuel s acc, ds.length < fuel →
    (∀ c, s.head? = some c → ¬(48 ≤ c ∧ c ≤ 57)) →
    parseDigitsAux fuel (ds ++ s) acc =
      (List.foldl (fun a c => a * 10 + (c - 48)) acc ds, s) := by
  induction ds with
  | nil =>
      intro fuel s acc hfuel hhead
      obtain ⟨g, rfl⟩ : ∃ g, fuel = g + 1 := ⟨fuel - 1, by omega⟩
      simp only [List.nil_append, parseDigitsAux, List.foldl_nil]
      match s with
      | [] => rfl
      | c :: rest =>
          show (if 48 ≤ c ∧ c ≤ 57 then
              parseDigitsAux g rest (acc * 10 + (c - 48))
            else (acc, c :: rest)) = (acc, c :: rest)
          rw [if_neg (hhead c rfl)]
  | cons d ds ih =>
      intro fuel s acc hfuel hhead
      obtain ⟨g, rfl⟩ : ∃ g, fuel = g + 1 := ⟨fuel - 1, by omega⟩
      have hd := hds d (by simp)
      simp only [List.cons_append, parseDigitsAux, List.foldl_cons]
      rw [if_pos hd]
      exact ih (fun c hc => hds c (by simp [hc])) g s (acc * 10 + (d - 48))
        (by simpa using hfuel) hhead

theorem parseJsonUInt64_decimal (n : Nat) (hn : n < 2 ^ 64) (fuel : Nat)
    (s : List Nat) (hfuel : (decimalNat n).length < fuel)
    (hhead : ∀ c, s.head? = some c → ¬(48 ≤ c ∧ c ≤ 57)) :
    parseJsonUInt64 fuel (decimalNat n ++ s) = some (n, s) := by
  obtain ⟨c0, t, hct⟩ := List.exists_cons_of_ne_nil (decimalNat_ne_nil n)
  have hc0 : 48 ≤ c0 ∧ c0 ≤ 57 :=
    decimalNat_digits n c0 (by rw [hct]; simp)
  rw [hct, List.cons_append]
  simp only [parseJsonUInt64]
  rw [if_pos hc0, ← List.cons_append, ← hct,
    parseDigitsAux_spec (decimalNat n) (decimalNat_digits n) fuel s 0 hfuel
      hhead,
    decimalNat_foldl n]
  simp only [if_pos hn]

theorem parseJsonInt64_decimal (i : Int) (hlo : -(2 ^ 63) ≤ i)
    (hhi : i < 2 ^ 63) (fuel : Nat) (s : List Nat)
    (hfuel : (decimalInt i).length < fuel)
    (hhead : ∀ c, s.head? = some c → ¬(48 ≤ c ∧ c ≤ 57)) :
    parseJsonInt64 fuel (decimalInt i ++ s) = some (i, s) := by
  by_cases hneg : i < 0
  · have hdi : decimalInt i = 45 :: decimalNat (-i).toNat := by
      simp [decimalInt, hneg]
    rw [hdi, List.cons_append]
    obtain ⟨c0, t, hct⟩ :=
      List.exists_cons_of_ne_nil (decimalNat_ne_nil (-i).toNat)
    have hc0 : 48 ≤ c0 ∧ c0 ≤ 57 :=
      decimalNat_digits (-i).toNat c0 (by rw [hct]; simp)
    simp only [parseJsonInt64]
    rw [if_pos trivial,
      parseDigitsAux_spec (decimalNat (-i).toNat)
        (decimalNat_digits (-i).toNat) fuel s 0 (by simp [hdi] at hfuel; omega)
        hhead,
      decimalNat_foldl (-i).toNat]
    rw [hct, List.cons_append]
    show (if 48 ≤ c0 ∧ c0 ≤ 57 then _ else none) = _
    rw [if_pos hc0]
    rw [if_pos (by constructor <;> omega)]
    congr 2
    omega
  · have hdi : decimalInt i = decimalNat i.toNat := by
      simp [decimalInt, hneg]
    rw [hdi]
    obtain ⟨c0, t, hct⟩ :=
      List.exists_cons_of_ne_nil (decimalNat_ne_nil i.toNat)
    have hc0 : 48 ≤ c0 ∧ c0 ≤ 57 :=
      decimalNat_digits i.toNat c0 (by rw [hct]; simp)
    rw [hct, List.cons_append]
    simp only [parseJsonInt64]
    rw [if_neg (by omega)]
    rw [if_pos hc0, ← List.cons_append, ← hct,
      parseDigitsAux_spec (decimalNat i.toNat) (decimalNat_digits i.toNat)
        fuel s 0 (by rw [hdi] at hfuel; exact hfuel) hhead,
      decimalNat_foldl i.toNat]
    rw [if_pos (by omega)]
    congr 2
    omega

theorem hexVal_hexDigit : ∀ d, d < 16 → hexVal (hexDigit d) = some d := by
  decide

theorem parseJsonString_escape (v : List Nat) (hv : isBytes v) :
    ∀ fuel rest, v.length < fuel →
    parseJsonStringAux fuel (jsonEscape v ++ (34 :: rest)) = some (v, rest) := by
  induction v with
  | nil =>
      intro fuel rest hfuel
      obtain ⟨g, rfl⟩ : ∃ g, fuel = g + 1 := ⟨fuel - 1, by omega⟩
      simp only [jsonEscape, List.nil_append, parseJsonStringAux]
      norm_num
  | cons b v ih =>
      intro fuel rest hfuel
      obtain ⟨g, rfl⟩ : ∃ g, fuel = g + 1 := ⟨fuel - 1, by omega⟩
      have hb : b < 256 := hv b (by simp)
      have hv' : isBytes v := fun c hc => hv c (by simp [hc])
      have hg : v.length < g := by
        simp only [List.length_cons] at hfuel; omega
      by_cases h34 : b = 34
      · subst h34
        have hesc : jsonEscape (34 :: v) = 92 :: (34 :: jsonEscape v) := by
          simp [jsonEscape]
        rw [hesc, List.cons_append, List.cons_append]
        simp only [parseJsonStringAux]
        norm_num
        rw [ih hv' g rest hg]
      · by_cases h92 : b = 92
        · subst h92
          have hesc : jsonEscape (92 :: v) = 92 :: (92 :: jsonEscape v) := by
            simp [jsonEscape]
          rw [hesc, List.cons_append, List.cons_append]
          simp only [parseJsonStringAux]
          norm_num
          rw [ih hv' g rest hg]
        · by_cases hctl : b < 32
          · have hesc : jsonEscape (b :: v) =
                92 :: (117 :: (48 :: (48 :: (hexDigit (b / 16) ::
                  (hexDigit (b % 16) :: jsonEscape v))))) := by
              simp [jsonEscape, h34, h92, hctl]
            rw [hesc]
            simp only [List.cons_append, parseJsonStringAux]
            norm_num
            have hh1 : hexVal 48 = some 0 := by decide
            have hh3 : hexVal (hexDigit (b / 16)) = some (b / 16) :=
              hexVal_hexDigit _ (by omega)
            have hh4 : hexVal (hexDigit (b % 16)) = some (b % 16) :=
              hexVal_hexDigit _ (by omega)
            rw [hh1, hh3, hh4]
            show (if 0 * 4096 + 0 * 256 + b / 16 * 16 + b % 16 < 256 then _
              else none) = _
            rw [if_pos (by omega), ih hv' g rest hg]
            show some ((0 * 4096 + 0 * 256 + b / 16 * 16 + b % 16) :: v,
              rest) = some (b :: v, rest)
            have hbv : 0 * 4096 + 0 * 256 + b / 16 * 16 + b % 16 = b := by
              omega
            rw [hbv]
          · have hesc : jsonEscape (b :: v) = b :: jsonEscape v := by
              simp [jsonEscape, h34, h92, hctl]
            rw [hesc, List.cons_append]
            simp only [parseJsonStringAux]
            rw [if_neg h34, if_neg h92, if_neg hctl, ih hv' g rest hg]
            rfl

theorem b64charStd_plain : ∀ s, s < 64 →
    ¬b64charStd s = 34 ∧ ¬b64charStd s = 92 ∧ ¬b64charStd s < 32 ∧
      b64charStd s < 256 := by decide

theorem b64encodeStd_plain (l : List Nat) :
    ∀ c ∈ b64encodeStd l,
      ¬c = 34 ∧ ¬c = 92 ∧ ¬c < 32 ∧ c < 256 := by
  match l with
  | [] => simp [b64encodeStd]
  | [b1] =>
      intro c hc
      simp only [b64encodeStd, List.mem_cons, List.not_mem_nil, or_false] at hc
      rcases hc with h | h | h | h <;> subst h
      · exact b64charStd_plain _ (by omega)
      · exact b64charStd_plain _ (by omega)
      · refine ⟨by omega, by omega, by omega, by omega⟩
      · refine ⟨by omega, by omega, by omega, by omega⟩
  | [b1, b2] =>
      intro c hc
      simp only [b64encodeStd, List.mem_cons, List.not_mem_nil, or_false] at hc
      rcases hc with h | h | h | h <;> subst h
      · exact b64charStd_plain _ (by omega)
      · exact b64charStd_plain _ (by omega)
      · exact b64charStd_plain _ (by omega)
      · refine ⟨by omega, by omega, by omega, by omega⟩
  | b1 :: b2 :: b3 :: rest =>
      intro c hc
      simp only [b64encodeStd, List.mem_cons] at hc
      rcases hc with h | h | h | h | h
      · subst h; exact b64charStd_plain _ (by omega)
      · subst h; exact b64charStd_plain _ (by omega)
      · subst h; exact b64charStd_plain _ (by omega)
      · subst h; exact b64charStd_plain _ (by omega)
      · exact b64encodeStd_plain rest c h

theorem isBytes_b64encodeStd (l : List Nat) : isBytes (b64encodeStd l) :=
  fun c hc => (b64encodeStd_plain l c hc).2.2.2

theorem jsonEscape_length (v : List Nat) :
    v.length ≤ (jsonEscape v).length := by
  match v with
  | [] => simp [jsonEscape]
  | b :: rest =>
      have := jsonEscape_length rest
      simp only [jsonEscape, List.length_append, List.length_cons]
      by_cases h34 : b = 34
      · simp [h34]; omega
      · by_cases h92 : b = 92
        · simp [h34, h92]; omega
        · by_cases hctl : b < 32
          · simp [h34, h92, hctl]; omega
          · simp [h34, h92, hctl]; omega

theorem jsonMember_append (n : String) (v Y : List Nat) :
    jsonMember n v ++ Y = 34 :: (ascii n ++ (34 :: (58 :: (v ++ Y)))) := by
  simp [jsonMember]

theorem parseFields_chain (ms : List JField) (hok : ∀ m ∈ ms, JFieldOk m) :
    ∀ (u : userSig) (fuel : Nat) (ws : List Nat), ¬ms = [] →
    (joinComma (ms.map renderJField) ++ (125 :: ws)).length < fuel →
    parseFields fuel u (joinComma (ms.map renderJField) ++ (125 :: ws)) =
      some (applyJFields ms u, ws) := by
  induction ms with
  | nil => intro u fuel ws hne; exact absurd rfl hne
  | cons m ms ih =>
      intro u fuel ws hne hfuel
      obtain ⟨g, rfl⟩ : ∃ g, fuel = g + 1 := ⟨fuel - 1, by omega⟩
      obtain ⟨hbytes, hesc, happly⟩ := hok m (by simp)
      match ms with
      | [] =>
          have hjoin : joinComma ([m].map renderJField) = renderJField m := rfl
          rw [hjoin] at hfuel ⊢
          have hmem : renderJField m ++ (125 :: ws) =
              34 :: (ascii m.name ++ (34 :: (58 :: (m.val ++ (125 :: ws))))) :=
            jsonMember_append m.name m.val (125 :: ws)
          rw [hmem] at hfuel ⊢
          simp only [List.length_cons, List.length_append] at hfuel
          simp only [parseFields]
          have hkey : parseJsonStringAux g
              (ascii m.name ++ (34 :: (58 :: (m.val ++ (125 :: ws))))) =
              some (ascii m.name, 58 :: (m.val ++ (125 :: ws))) := by
            conv_lhs => rw [← hesc]
            exact parseJsonString_escape (ascii m.name) hbytes g _ (by omega)
          rw [hkey]
          simp only []
          rw [happly g u (125 :: ws) (by simp; omega) (by simp)]
          rfl
      | m2 :: ms' =>
          have hjoin : joinComma ((m :: m2 :: ms').map renderJField) =
              renderJField m ++
                (44 :: joinComma ((m2 :: ms').map renderJField)) := rfl
          rw [hjoin] at hfuel ⊢
          rw [List.append_assoc] at hfuel ⊢
          simp only [List.cons_append] at hfuel ⊢
          have hmem : renderJField m ++ (44 ::
              (joinComma ((m2 :: ms').map renderJField) ++ (125 :: ws))) =
              34 :: (ascii m.name ++ (34 :: (58 :: (m.val ++ (44 ::
                (joinComma ((m2 :: ms').map renderJField) ++
                  (125 :: ws))))))) :=
            jsonMember_append m.name m.val _
          rw [hmem] at hfuel ⊢
          simp only [List.length_cons, List.length_append] at hfuel
          simp only [parseFields]
          have hkey : parseJsonStringAux g
              (ascii m.name ++ (34 :: (58 :: (m.val ++ (44 ::
                (joinComma ((m2 :: ms').map renderJField) ++ (125 :: ws))))))) =
              some (ascii m.name, 58 :: (m.val ++ (44 ::
                (joinComma ((m2 :: ms').map renderJField) ++ (125 :: ws))))) := by
            conv_lhs => rw [← hesc]
            exact parseJsonString_escape (ascii m.name) hbytes g _ (by omega)
          rw [hkey]
          simp only []
          rw [happly g u (44 ::
            (joinComma ((m2 :: ms').map renderJField) ++ (125 :: ws)))
            (by simp only [List.length_append, List.length_cons]; omega)
            (by simp)]
          simp only []
          rw [ih (fun x hx => hok x (by simp [hx])) (m.upd u) g ws
            (by simp)
            (by simp only [List.length_append, List.length_cons]; omega)]
          rfl

theorem verField_ok (v : List Nat) (hv : isBytes v) : JFieldOk (verField v) := by
  refine ⟨?_, ?_, ?_⟩
  · show isBytes (ascii "TLS.ver")
    decide
  · show jsonEscape (ascii "TLS.ver") = ascii "TLS.ver"
    decide
  intro g u X hlen hhead
  have hb : v.length < g := by
    have := jsonEscape_length v
    simp only [verField, jsonStringLit, List.length_append,
      List.length_cons] at hlen ⊢
    omega
  show applyField g u (ascii "TLS.ver") (jsonStringLit v ++ X) =
    some ({ u with Version := v }, X)
  simp only [applyField]
  rw [show jsonStringLit v ++ X = 34 :: (jsonEscape v ++ (34 :: X)) from by
    simp [jsonStringLit]]
  norm_num
  rw [parseJsonString_escape v hv g X hb]

theorem headNotDigit_of_sep (X : List Nat)
    (hhead : X.head? = some 44 ∨ X.head? = some 125) :
    ∀ c, X.head? = some c → ¬(48 ≤ c ∧ c ≤ 57) := by
  rcases hhead with h | h <;> intro c hc <;> rw [h] at hc <;>
    simp at hc <;> omega

theorem idField_ok (v : List Nat) (hv : isBytes v) : JFieldOk (idField v) := by
  refine ⟨?_, ?_, ?_⟩
  · show isBytes (ascii "TLS.identifier")
    decide
  · show jsonEscape (ascii "TLS.identifier") = ascii "TLS.identifier"
    decide
  intro g u X hlen hhead
  have hb : v.length < g := by
    have := jsonEscape_length v
    simp only [idField, jsonStringLit, List.length_append,
      List.length_cons] at hlen ⊢
    omega
  show applyField g u (ascii "TLS.identifier") (jsonStringLit v ++ X) =
    some ({ u with Identifier := v }, X)
  simp only [applyField]
  rw [if_neg (by decide)]
  rw [show jsonStringLit v ++ X = 34 :: (jsonEscape v ++ (34 :: X)) from by
    simp [jsonStringLit]]
  norm_num
  rw [parseJsonString_escape v hv g X hb]

theorem appField_ok (n : Nat) (hn : n < 2 ^ 64) : JFieldOk (appField n) := by
  refine ⟨?_, ?_, ?_⟩
  · show isBytes (ascii "TLS.sdkappid")
    decide
  · show jsonEscape (ascii "TLS.sdkappid") = ascii "TLS.sdkappid"
    decide
  intro g u X hlen hhead
  have hb : (decimalNat n).length < g := by
    simp only [appField, List.length_append] at hlen ⊢
    omega
  show applyField g u (ascii "TLS.sdkappid") (decimalNat n ++ X) =
    some ({ u with SdkAppID := n }, X)
  simp only [applyField]
  rw [if_neg (by decide), if_neg (by decide)]
  norm_num
  rw [parseJsonUInt64_decimal n hn g X hb (headNotDigit_of_sep X hhead)]

theorem expField_ok (i : Int) (hlo : -(2 ^ 63) ≤ i) (hhi : i < 2 ^ 63) :
    JFieldOk (expField i) := by
  refine ⟨?_, ?_, ?_⟩
  · show isBytes (ascii "TLS.expire")
    decide
  · show jsonEscape (ascii "TLS.expire") = ascii "TLS.expire"
    decide
  intro g u X hlen hhead
  have hb : (decimalInt i).length < g := by
    simp only [expField, List.length_append] at hlen ⊢
    omega
  show applyField g u (ascii "TLS.expire") (decimalInt i ++ X) =
    some ({ u with Expire := i }, X)
  simp only [applyField]
  rw [if_neg (by decide), if_neg (by decide), if_neg (by decide)]
  norm_num
  rw [parseJsonInt64_decimal i hlo hhi g X hb (headNotDigit_of_sep X hhead)]

theorem timeField_ok (i : Int) (hlo : -(2 ^ 63) ≤ i) (hhi : i < 2 ^ 63) :
    JFieldOk (timeField i) := by
  refine ⟨?_, ?_, ?_⟩
  · show isBytes (ascii "TLS.time")
    decide
  · show jsonEscape (ascii "TLS.time") = ascii "TLS.time"
    decide
  intro g u X hlen hhead
  have hb : (decimalInt i).length < g := by
    simp only [timeField, List.length_append] at hlen ⊢
    omega
  show applyField g u (ascii "TLS.time") (decimalInt i ++ X) =
    some ({ u with Time := i }, X)
  simp only [applyField]
  rw [if_neg (by decide), if_neg (by decide), if_neg (by decide),
    if_neg (by decide)]
  norm_num
  rw [parseJsonInt64_decimal i hlo hhi g X hb (headNotDigit_of_sep X hhead)]

theorem bufField_ok (b : List Nat) (hb : isBytes b) :
    JFieldOk (bufField b) := by
  refine ⟨?_, ?_, ?_⟩
  · show isBytes (ascii "TLS.userbuf")
    decide
  · show jsonEscape (ascii "TLS.userbuf") = ascii "TLS.userbuf"
    decide
  intro g u X hlen hhead
  have hlb : (b64encodeStd b).length < g := by
    have := jsonEscape_length (b64encodeStd b)
    simp only [bufField, jsonStringLit, List.length_append,
      List.length_cons] at hlen ⊢
    omega
  show applyField g u (ascii "TLS.userbuf")
      (jsonStringLit (b64encodeStd b) ++ X) =
    some ({ u with UserBuf := some b }, X)
  simp only [applyField]
  rw [if_neg (by decide), if_neg (by decide), if_neg (by decide),
    if_neg (by decide), if_neg (by decide)]
  rw [show jsonStringLit (b64encodeStd b) ++ X =
      34 :: (jsonEscape (b64encodeStd b) ++ (34 :: X)) from by
    simp [jsonStringLit]]
  norm_num
  rw [parseJsonString_escape (b64encodeStd b) (isBytes_b64encodeStd b) g X
    hlb]
  show (match b64decodeStd (b64encodeStd b) with
    | some bytes =>
        some ((⟨u.Version, u.Identifier, u.SdkAppID, u.Expire, u.Time,
          some bytes, u.Sig⟩ : userSig), X)
    | none => none) = some ({ u with UserBuf := some b }, X)
  rw [b64std_roundtrip b hb]

theorem sigField_ok (b : List Nat) (hb : isBytes b) :
    JFieldOk (sigField b) := by
  refine ⟨?_, ?_, ?_⟩
  · show isBytes (ascii "TLS.sig")
    decide
  · show jsonEscape (ascii "TLS.sig") = ascii "TLS.sig"
    decide
  intro g u X hlen hhead
  have hlb : (b64encodeStd b).length < g := by
    have := jsonEscape_length (b64encodeStd b)
    simp only [sigField, jsonStringLit, List.length_append,
      List.length_cons] at hlen ⊢
    omega
  show applyField g u (ascii "TLS.sig")
      (jsonStringLit (b64encodeStd b) ++ X) =
    some ({ u with Sig := b }, X)
  simp only [applyField]
  rw [if_neg (by decide), if_neg (by decide), if_neg (by decide),
    if_neg (by decide), if_neg (by decide), if_neg (by decide)]
  rw [show jsonStringLit (b64encodeStd b) ++ X =
      34 :: (jsonEscape (b64encodeStd b) ++ (34 :: X)) from by
    simp [jsonStringLit]]
  norm_num
  rw [parseJsonString_escape (b64encodeStd b) (isBytes_b64encodeStd b) g X
    hlb]
  show (match b64decodeStd (b64encodeStd b) with
    | some bytes =>
        some ((⟨u.Version, u.Identifier, u.SdkAppID, u.Expire, u.Time,
          u.UserBuf, bytes⟩ : userSig), X)
    | none => none) = some ({ u with Sig := b }, X)
  rw [b64std_roundtrip b hb]

theorem jsonMarshal_eq_members (u : userSig) :
    jsonMarshalUserSig u =
      123 :: (joinComma ((memberFields u).map renderJField) ++ [125]) := by
  have hmap : (memberFields u).map renderJField =
      (if u.Version = [] then []
       else [jsonMember "TLS.ver" (jsonStringLit u.Version)]) ++
      (if u.Identifier = [] then []
       else [jsonMember "TLS.identifier" (jsonStringLit u.Identifier)]) ++
      (if u.SdkAppID = 0 then []
       else [jsonMember "TLS.sdkappid" (decimalNat u.SdkAppID)]) ++
      (if u.Expire = 0 then []
       else [jsonMember "TLS.expire" (decimalInt u.Expire)]) ++
      (if u.Time = 0 then []
       else [jsonMember "TLS.time" (decimalInt u.Time)]) ++
      (match u.UserBuf with
       | none => []
       | some b =>
           if b = [] then []
           else [jsonMember "TLS.userbuf" (jsonStringLit (b64encodeStd b))]) ++
      (if u.Sig = [] then []
       else [jsonMember "TLS.sig" (jsonStringLit (b64encodeStd u.Sig))]) := by
    rcases hub : u.UserBuf with _ | b
    · simp [memberFields, apply_ite (List.map renderJField), renderJField,
        verField, idField, appField, expField, timeField, sigField, hub]
    · by_cases hb : b = [] <;>
        simp [memberFields, apply_ite (List.map renderJField), renderJField,
          verField, idField, appField, expField, timeField, bufField,
          sigField, hub, hb]
  rw [hmap]
  rcases hub : u.UserBuf with _ | b <;>
    simp [jsonMarshalUserSig, List.append_assoc, hub]

theorem joinComma_cons_shape (a : List Nat) (l : List (List Nat)) :
    ∃ t, joinComma (a :: l) = a ++ t := by
  cases l with
  | nil => exact ⟨[], by simp [joinComma]⟩
  | cons b l' => exact ⟨44 :: joinComma (b :: l'), rfl⟩

theorem jsonUnmarshal_marshal (u : userSig)
    (hok : ∀ m ∈ memberFields u, JFieldOk m)
    (hne : ¬memberFields u = []) :
    jsonUnmarshalUserSig (jsonMarshalUserSig u ++ [10]) =
      some (applyJFields (memberFields u) {}) := by
  obtain ⟨m0, ms', hms⟩ := List.exists_cons_of_ne_nil hne
  rw [jsonMarshal_eq_members]
  rw [show (123 :: (joinComma ((memberFields u).map renderJField) ++ [125]))
      ++ [10] =
      123 :: (joinComma ((memberFields u).map renderJField) ++
        (125 :: [10])) from by simp]
  obtain ⟨t, ht⟩ := joinComma_cons_shape (renderJField m0)
    (ms'.map renderJField)
  have hmap0 : (memberFields u).map renderJField =
      renderJField m0 :: ms'.map renderJField := by rw [hms]; rfl
  have hcons : joinComma ((memberFields u).map renderJField) ++
      (125 :: [10]) =
      34 :: ((ascii m0.name ++ (34 :: (58 :: m0.val))) ++ (t ++ (125 :: [10]))) := by
    rw [hmap0, ht]
    simp [renderJField, jsonMember, List.append_assoc]
  have hfuelEq : ∀ Z : List Nat, (123 :: Z).length + 1 = Z.length + 2 := by
    intro Z; simp
  rw [hcons]
  show (match parseFields ((123 :: (34 :: ((ascii m0.name ++ (34 :: (58 :: m0.val))) ++ (t ++ (125 :: [10]))))).length + 1) {}
      (34 :: ((ascii m0.name ++ (34 :: (58 :: m0.val))) ++ (t ++ (125 :: [10])))) with
    | some (u2, rest2) => if isJsonWs rest2 then some u2 else none
    | none => none) = some (applyJFields (memberFields u) {})
  rw [← hcons]
  rw [parseFields_chain (memberFields u) hok {} _ [10] hne (by
    rw [hcons]
    simp only [List.length_cons, List.length_append]
    omega)]
  rfl

theorem applyJFields_memberFields (u : userSig) :
    applyJFields (memberFields u) {} =
      { u with UserBuf := normBuf u.UserBuf } := by
  rcases hub : u.UserBuf with _ | b
  · simp only [memberFields, hub, normBuf]
    split_ifs <;>
      simp_all [applyJFields, verField, idField, appField, expField,
        timeField, sigField, List.foldl_append]
  · simp only [memberFields, hub, normBuf]
    split_ifs <;>
      simp_all [applyJFields, verField, idField, appField, expField,
        timeField, bufField, sigField, List.foldl_append]

theorem isBytes_append (a b : List Nat) (ha : isBytes a) (hb : isBytes b) :
    isBytes (a ++ b) := by
  intro c hc
  rcases List.mem_append.1 hc with h | h
  · exact ha c h
  · exact hb c h

theorem isBytes_cons (a : Nat) (l : List Nat) (ha : a < 256)
    (hl : isBytes l) : isBytes (a :: l) := by
  intro c hc
  rcases List.mem_cons.1 hc with h | h
  · omega
  · exact hl c h

theorem isBytes_decimalNat (n : Nat) : isBytes (decimalNat n) := by
  intro c hc
  have := decimalNat_digits n c hc
  omega

theorem isBytes_decimalInt (i : Int) : isBytes (decimalInt i) := by
  intro c hc
  simp only [decimalInt] at hc
  by_cases h : i < 0
  · rw [if_pos h] at hc
    rcases List.mem_cons.1 hc with h2 | h2
    · omega
    · have := decimalNat_digits (-i).toNat c h2; omega
  · rw [if_neg h] at hc
    have := decimalNat_digits i.toNat c hc; omega

theorem isBytes_jsonEscape (v : List Nat) (hv : isBytes v) :
    isBytes (jsonEscape v) := by
  match v with
  | [] => intro c hc; simp [jsonEscape] at hc
  | b :: rest =>
      have hb : b < 256 := hv b (by simp)
      have ih := isBytes_jsonEscape rest (fun c hc => hv c (by simp [hc]))
      intro c hc
      simp only [jsonEscape, List.mem_append] at hc
      rcases hc with hc | hc
      · by_cases h34 : b = 34
        · simp [h34] at hc; omega
        · by_cases h92 : b = 92
          · simp [h34, h92] at hc; omega
          · by_cases hctl : b < 32
            · have hx : ∀ d, d < 16 → hexDigit d < 256 := by decide
              have hx1 := hx (b / 16) (by omega)
              have hx2 := hx (b % 16) (by omega)
              simp only [if_neg h34, if_neg h92, if_pos hctl] at hc
              rcases List.mem_cons.1 hc with h | hc2
              · omega
              rcases List.mem_cons.1 hc2 with h | hc3
              · omega
              rcases List.mem_cons.1 hc3 with h | hc4
              · omega
              rcases List.mem_cons.1 hc4 with h | hc5
              · omega
              rcases List.mem_cons.1 hc5 with h | hc6
              · omega
              rcases List.mem_cons.1 hc6 with h | hc7
              · omega
              simp at hc7
            · simp [h34, h92, hctl] at hc; omega
      · exact ih c hc

theorem isBytes_jsonStringLit (v : List Nat) (hv : isBytes v) :
    isBytes (jsonStringLit v) := by
  refine isBytes_cons 34 _ (by omega) (isBytes_append _ _ ?_ ?_)
  · exact isBytes_jsonEscape v hv
  · intro c hc; simp at hc; omega

theorem isBytes_joinComma (l : List (List Nat))
    (h : ∀ f ∈ l, isBytes f) : isBytes (joinComma l) := by
  match l with
  | [] => intro c hc; simp [joinComma] at hc
  | [f] =>
      show isBytes (joinComma [f])
      have : joinComma [f] = f := rfl
      rw [this]; exact h f (by simp)
  | f :: f2 :: rest =>
      have : joinComma (f :: f2 :: rest) =
          f ++ (44 :: joinComma (f2 :: rest)) := rfl
      rw [this]
      refine isBytes_append _ _ (h f (by simp)) (isBytes_cons _ _ (by omega) ?_)
      exact isBytes_joinComma (f2 :: rest) (fun g hg => h g (by simp [hg]))

theorem isBytes_ascii_name : ∀ s : String, s ∈ ["TLS.ver", "TLS.identifier",
    "TLS.sdkappid", "TLS.expire", "TLS.time", "TLS.userbuf", "TLS.sig"] →
    isBytes (ascii s) := by decide

theorem isBytes_be32 (v : Nat) : isBytes (be32 v) := by
  intro c hc
  simp [be32] at hc
  rcases hc with h | h | h | h <;> omega

theorem isBytes_deflateStored (fuel : Nat) (d : List Nat)
    (hd : isBytes d) : isBytes (deflateStored fuel d) := by
  match fuel with
  | 0 => intro c hc; simp [deflateStored] at hc
  | fuel + 1 =>
      intro c hc
      simp only [deflateStored] at hc
      by_cases h : d.length ≤ 65535
      · rw [if_pos h] at hc
        rcases List.mem_cons.1 hc with h2 | h2
        · omega
        · rcases List.mem_cons.1 h2 with h3 | h3
          · omega
          · rcases List.mem_cons.1 h3 with h4 | h4
            · omega
            · rcases List.mem_cons.1 h4 with h5 | h5
              · omega
              · rcases List.mem_cons.1 h5 with h6 | h6
                · omega
                · exact hd c h6
      · rw [if_neg h] at hc
        rcases List.mem_cons.1 hc with h2 | h2
        · omega
        · rcases List.mem_cons.1 h2 with h3 | h3
          · omega
          · rcases List.mem_cons.1 h3 with h4 | h4
            · omega
            · rcases List.mem_cons.1 h4 with h5 | h5
              · omega
              · rcases List.mem_cons.1 h5 with h6 | h6
                · omega
                · rcases List.mem_append.1 h6 with h7 | h7
                  · exact hd c (List.mem_of_mem_take h7)
                  · exact isBytes_deflateStored fuel (d.drop 65535)
                      (fun x hx => hd x (List.mem_of_mem_drop hx)) c h7

theorem isBytes_zlibCompress (d : List Nat) (hd : isBytes d) :
    isBytes (zlibCompress d) := by
  refine isBytes_cons 120 _ (by omega) (isBytes_cons 1 _ (by omega) ?_)
  exact isBytes_append _ _ (isBytes_deflateStored _ _ hd) (isBytes_be32 _)

theorem isBytes_be64 (n : Nat) : isBytes (be64 n) := by
  intro c hc
  simp [be64] at hc
  rcases hc with h | h | h | h | h | h | h | h <;> omega

theorem isBytes_hmacSha256 (key msg : List Nat) (hk : isBytes key)
    (hm : isBytes msg) : isBytes (hmacSha256 key msg) := by
  refine isBytes_append _ _ (isBytes_append _ _ (isBytes_be64 _) hk) hm

theorem isBytes_signedMessage (u : userSig) (hid : isBytes u.Identifier) :
    isBytes u.signedMessage := by
  simp only [userSig.signedMessage]
  refine isBytes_append _ _ ?_ ?_
  · refine isBytes_append _ _ ?_ (by decide)
    refine isBytes_append _ _ ?_ (isBytes_decimalInt _)
    refine isBytes_append _ _ ?_ (by decide)
    refine isBytes_append _ _ ?_ (by decide)
    refine isBytes_append _ _ ?_ (isBytes_decimalInt _)
    refine isBytes_append _ _ ?_ (by decide)
    refine isBytes_append _ _ ?_ (by decide)
    refine isBytes_append _ _ ?_ (isBytes_decimalNat _)
    refine isBytes_append _ _ ?_ (by decide)
    refine isBytes_append _ _ ?_ (by decide)
    exact isBytes_append _ _ (by decide) hid
  · rcases hub : u.UserBuf with _ | b
    · intro c hc; simp at hc
    · refine isBytes_append _ _ ?_ (by decide)
      exact isBytes_append _ _ (by decide) (isBytes_b64encodeStd b)

theorem memberFields_ok (u : userSig)
    (h1 : isBytes u.Version) (h2 : isBytes u.Identifier)
    (h3 : u.SdkAppID < 2 ^ 64)
    (h4a : -(2 ^ 63) ≤ u.Expire) (h4b : u.Expire < 2 ^ 63)
    (h5a : -(2 ^ 63) ≤ u.Time) (h5b : u.Time < 2 ^ 63)
    (h6 : ∀ b, u.UserBuf = some b → isBytes b)
    (h7 : isBytes u.Sig) :
    ∀ m ∈ memberFields u, JFieldOk m := by
  intro m hm
  simp only [memberFields, List.mem_append] at hm
  rcases hm with ((((((hm | hm) | hm) | hm) | hm) | hm) | hm)
  · by_cases hc : u.Version = []
    · simp [hc] at hm
    · simp [hc] at hm; subst hm; exact verField_ok _ h1
  · by_cases hc : u.Identifier = []
    · simp [hc] at hm
    · simp [hc] at hm; subst hm; exact idField_ok _ h2
  · by_cases hc : u.SdkAppID = 0
    · simp [hc] at hm
    · simp [hc] at hm; subst hm; exact appField_ok _ h3
  · by_cases hc : u.Expire = 0
    · simp [hc] at hm
    · simp [hc] at hm; subst hm; exact expField_ok _ h4a h4b
  · by_cases hc : u.Time = 0
    · simp [hc] at hm
    · simp [hc] at hm; subst hm; exact timeField_ok _ h5a h5b
  · rcases hub : u.UserBuf with _ | b
    · simp [hub] at hm
    · by_cases hc : b = []
      · simp [hub, hc] at hm
      · simp [hub, hc] at hm; subst hm; exact bufField_ok _ (h6 b hub)
  · by_cases hc : u.Sig = []
    · simp [hc] at hm
    · simp [hc] at hm; subst hm; exact sigField_ok _ h7

theorem isBytes_renderJField (m : JField)
    (hname : isBytes (ascii m.name)) (hval : isBytes m.val) :
    isBytes (renderJField m) := by
  refine isBytes_cons 34 _ (by omega) (isBytes_append _ _ hname ?_)
  refine isBytes_cons 34 _ (by omega) (isBytes_cons 58 _ (by omega) hval)

theorem isBytes_memberFields_render (u : userSig)
    (h1 : isBytes u.Version) (h2 : isBytes u.Identifier)
    (h6 : ∀ b, u.UserBuf = some b → isBytes b)
    (h7 : isBytes u.Sig) :
    ∀ f ∈ (memberFields u).map renderJField, isBytes f := by
  intro f hf
  rcases List.mem_map.1 hf with ⟨m, hm, rfl⟩
  simp only [memberFields, List.mem_append] at hm
  rcases hm with ((((((hm | hm) | hm) | hm) | hm) | hm) | hm)
  · by_cases hc : u.Version = []
    · simp [hc] at hm
    · simp [hc] at hm; subst hm
      exact isBytes_renderJField _ (show isBytes (ascii "TLS.ver") by decide)
        (isBytes_jsonStringLit _ h1)
  · by_cases hc : u.Identifier = []
    · simp [hc] at hm
    · simp [hc] at hm; subst hm
      exact isBytes_renderJField _
        (show isBytes (ascii "TLS.identifier") by decide)
        (isBytes_jsonStringLit _ h2)
  · by_cases hc : u.SdkAppID = 0
    · simp [hc] at hm
    · simp [hc] at hm; subst hm
      exact isBytes_renderJField _
        (show isBytes (ascii "TLS.sdkappid") by decide)
        (isBytes_decimalNat _)
  · by_cases hc : u.Expire = 0
    · simp [hc] at hm
    · simp [hc] at hm; subst hm
      exact isBytes_renderJField _
        (show isBytes (ascii "TLS.expire") by decide)
        (isBytes_decimalInt _)
  · by_cases hc : u.Time = 0
    · simp [hc] at hm
    · simp [hc] at hm; subst hm
      exact isBytes_renderJField _
        (show isBytes (ascii "TLS.time") by decide)
        (isBytes_decimalInt _)
  · rcases hub : u.UserBuf with _ | b
    · simp [hub] at hm
    · by_cases hc : b = []
      · simp [hub, hc] at hm
      · simp [hub, hc] at hm; subst hm
        exact isBytes_renderJField _
          (show isBytes (ascii "TLS.userbuf") by decide)
          (isBytes_jsonStringLit _ (isBytes_b64encodeStd _))
  · by_cases hc : u.Sig = []
    · simp [hc] at hm
    · simp [hc] at hm; subst hm
      exact isBytes_renderJField _
        (show isBytes (ascii "TLS.sig") by decide)
        (isBytes_jsonStringLit _ (isBytes_b64encodeStd _))

theorem isBytes_jsonMarshal (u : userSig)
    (h1 : isBytes u.Version) (h2 : isBytes u.Identifier)
    (h6 : ∀ b, u.UserBuf = some b → isBytes b)
    (h7 : isBytes u.Sig) :
    isBytes (jsonMarshalUserSig u) := by
  rw [jsonMarshal_eq_members]
  refine isBytes_cons 123 _ (by omega) (isBytes_append _ _ ?_ ?_)
  · exact isBytes_joinComma _ (isBytes_memberFields_render u h1 h2 h6 h7)
  · intro c hc; simp at hc; omega

theorem verify_eq_none_iff (u : userSig) (sdkappid : Nat)
    (key userid : List Nat) (now : Int) (userbuf : Option (List Nat)) :
    u.verify sdkappid key userid now userbuf = none ↔
      (sdkappid = u.SdkAppID ∧ userid = u.Identifier ∧
       now ≤ wrap64 (u.Time + u.Expire) ∧ bufCheck userbuf u.UserBuf = none ∧
       u.sign key = u.Sig) := by
  constructor
  · intro hv
    by_cases hA : sdkappid = u.SdkAppID
    · by_cases hB : userid = u.Identifier
      · by_cases hC : now > wrap64 (u.Time + u.Expire)
        · simp [userSig.verify, hA, hB, hC] at hv
        · rcases hb : bufCheck userbuf u.UserBuf with _ | e
          · by_cases hs : u.sign key = u.Sig
            · exact ⟨hA, hB, not_lt.1 hC, rfl, hs⟩
            · simp [userSig.verify, hA, hB, hC, hb, hs] at hv
          · simp [userSig.verify, hA, hB, hC, hb] at hv
      · simp [userSig.verify, hA, hB] at hv
    · simp [userSig.verify, hA] at hv
  · rintro ⟨hA, hB, hC, hb, hs⟩
    simp [userSig.verify, hA, hB, not_lt.2 hC, hb, hs]

theorem newUserSig_token (u : userSig)
    (h1 : isBytes u.Version) (h1b : ¬u.Version = [])
    (h2 : isBytes u.Identifier) (h3 : u.SdkAppID < 2 ^ 64)
    (h4a : -(2 ^ 63) ≤ u.Expire) (h4b : u.Expire < 2 ^ 63)
    (h5a : -(2 ^ 63) ≤ u.Time) (h5b : u.Time < 2 ^ 63)
    (h6 : ∀ b, u.UserBuf = some b → isBytes b)
    (h7 : isBytes u.Sig) :
    newUserSig (b64encodeUrl (zlibCompress (jsonMarshalUserSig u ++ [10]))) =
      some { u with UserBuf := normBuf u.UserBuf } := by
  have hjson : isBytes (jsonMarshalUserSig u ++ [10]) := by
    refine isBytes_append _ _ ?_ (by intro c hc; simp at hc; omega)
    exact isBytes_jsonMarshal u h1 h2 h6 h7
  have hne : ¬memberFields u = [] := by
    simp only [memberFields]
    intro hcontra
    simp only [List.append_eq_nil] at hcontra
    have h := hcontra.1
    rw [if_neg h1b] at h
    simp at h
  simp only [newUserSig]
  rw [b64url_roundtrip _ (isBytes_zlibCompress _ hjson)]
  simp only []
  rw [zlib_roundtrip]
  simp only []
  rw [jsonUnmarshal_marshal u
    (memberFields_ok u h1 h2 h3 h4a h4b h5a h5b h6 h7) hne]
  rw [applyJFields_memberFields]

theorem wrap64_eq (x : Int) (h1 : -(2 ^ 63) ≤ x) (h2 : x < 2 ^ 63) :
    wrap64 x = x := by
  simp only [wrap64]
  omega

/-- Claim C5 (amended): issuing a token without a user buffer and
verifying it with the same application id, key and identity at
`now = issuedAt` succeeds (the verifier returns `nil`), for every byte
identity and key and every `durationSeconds > 0` SUCH THAT the `int64`
sum `issuedAt + durationSeconds` does not overflow; when it does
overflow, the literal claim fails (see the counterexample): the freshly
issued token is immediately rejected as expired. -/
theorem roundtrip_verify (sdkappid : Int) (key identifier : List Nat)
    (expire now : Int)
    (hid : isBytes identifier) (hkey : isBytes key)
    (hexp : 0 < expire) (hexp2 : expire < 2 ^ 63)
    (ht1 : -(2 ^ 63) ≤ now)
    (hnoov : now + expire < 2 ^ 63) :
    VerifyUserSig (sdkappid % 2 ^ 64).toNat key identifier
      (genSig sdkappid key identifier expire none now) now = none := by
  have hgen : genSig sdkappid key identifier expire none now =
      b64encodeUrl (zlibCompress (jsonMarshalUserSig
        { Version := ascii "2.0", Identifier := identifier,
          SdkAppID := (sdkappid % 2 ^ 64).toNat, Expire := expire,
          Time := now, UserBuf := none,
          Sig := userSig.sign
            { Version := ascii "2.0", Identifier := identifier,
              SdkAppID := (sdkappid % 2 ^ 64).toNat, Expire := expire,
              Time := now, UserBuf := none, Sig := [] } key } ++ [10])) := rfl
  simp only [VerifyUserSig]
  rw [hgen, newUserSig_token _
    (show isBytes (ascii "2.0") by decide)
    (show ¬ascii "2.0" = [] by decide) hid
    (by show (sdkappid % 2 ^ 64).toNat < 2 ^ 64; omega)
    (by show -(2 ^ 63) ≤ expire; omega) (by show expire < 2 ^ 63; omega)
    (by show -(2 ^ 63) ≤ now; omega) (by show now < 2 ^ 63; omega)
    (by intro b hb; simp at hb)
    (isBytes_hmacSha256 _ _ hkey (isBytes_signedMessage _ hid))]
  simp only []
  refine (verify_eq_none_iff _ _ _ _ _ _).2 ⟨rfl, rfl, ?_, rfl, rfl⟩
  show now ≤ wrap64 (now + expire)
  rw [wrap64_eq (now + expire) (by omega) (by omega)]
  omega

theorem sign_ne_nil_vs_empty (key : List Nat) (u1 u2 : userSig)
    (hid : u1.Identifier = u2.Identifier) (happ : u1.SdkAppID = u2.SdkAppID)
    (ht : u1.Time = u2.Time) (he : u1.Expire = u2.Expire)
    (h1 : u1.UserBuf = none) (h2 : u2.UserBuf = some []) :
    ¬u1.sign key = u2.sign key := by
  intro hcontra
  exact signedMessage_length_nil_vs_empty u1 u2 hid happ ht he h1 h2
    (hmacSha256_msg_inj key _ _ hcontra)

/-- Claim C10: a token issued with an empty but non-nil user buffer can
never verify successfully through either entry point: serialization
omits the empty buffer (`omitempty`), so the unpacked document's buffer
is nil; `VerifyUserSigWithBuf` with the same empty buffer fails (at the
issue time, with the userbuf-type-mismatch error), and `VerifyUserSig`
fails (at the issue time, with the signature-mismatch error, the stored
signature having been computed with the userbuf line included). -/
theorem emptybuf_token_facts (sdkappid : Int) (key identifier : List Nat)
    (expire now : Int)
    (hid : isBytes identifier) (hkey : isBytes key)
    (hexp : 0 < expire) (hexp2 : expire < 2 ^ 63)
    (ht1 : -(2 ^ 63) ≤ now)
    (hnoov : now + expire < 2 ^ 63) :
    (∀ now2 : Int, ¬VerifyUserSig (sdkappid % 2 ^ 64).toNat key identifier
      (GenUserSigWithBuf sdkappid key identifier expire (some []) now)
      now2 = none) ∧
    (∀ now2 : Int, ¬VerifyUserSigWithBuf (sdkappid % 2 ^ 64).toNat key
      identifier
      (GenUserSigWithBuf sdkappid key identifier expire (some []) now)
      now2 (some []) = none) ∧
    VerifyUserSigWithBuf (sdkappid % 2 ^ 64).toNat key identifier
      (GenUserSigWithBuf sdkappid key identifier expire (some []) now)
      now (some []) = some .ErrUserBufTypeNotMatch ∧
    VerifyUserSig (sdkappid % 2 ^ 64).toNat key identifier
      (GenUserSigWithBuf sdkappid key identifier expire (some []) now)
      now = some .ErrSigNotMatch := by
  have hgen : GenUserSigWithBuf sdkappid key identifier expire (some [])
      now =
      b64encodeUrl (zlibCompress (jsonMarshalUserSig
        { Version := ascii "2.0", Identifier := identifier,
          SdkAppID := (sdkappid % 2 ^ 64).toNat, Expire := expire,
          Time := now, UserBuf := some [],
          Sig := userSig.sign
            { Version := ascii "2.0", Identifier := identifier,
              SdkAppID := (sdkappid % 2 ^ 64).toNat, Expire := expire,
              Time := now, UserBuf := some [], Sig := [] } key } ++ [10])) :=
    rfl
  have hnewtok : newUserSig (GenUserSigWithBuf sdkappid key identifier expire
      (some []) now) =
      some { Version := ascii "2.0", Identifier := identifier,
             SdkAppID := (sdkappid % 2 ^ 64).toNat, Expire := expire,
             Time := now, UserBuf := none,
             Sig := userSig.sign
               { Version := ascii "2.0", Identifier := identifier,
                 SdkAppID := (sdkappid % 2 ^ 64).toNat, Expire := expire,
                 Time := now, UserBuf := some [], Sig := [] } key } := by
    rw [hgen]
    exact newUserSig_token _
      (show isBytes (ascii "2.0") by decide)
      (show ¬ascii "2.0" = [] by decide) hid
      (by show (sdkappid % 2 ^ 64).toNat < 2 ^ 64; omega)
      (by show -(2 ^ 63) ≤ expire; omega) (by show expire < 2 ^ 63; omega)
      (by show -(2 ^ 63) ≤ now; omega) (by show now < 2 ^ 63; omega)
      (by intro b hb
          simp only [Option.some.injEq] at hb
          subst hb
          intro c hc
          simp at hc)
      (isBytes_hmacSha256 _ _ hkey (isBytes_signedMessage _ hid))
  have hne := sign_ne_nil_vs_empty key
    { Version := ascii "2.0", Identifier := identifier,
      SdkAppID := (sdkappid % 2 ^ 64).toNat, Expire := expire,
      Time := now, UserBuf := none,
      Sig := userSig.sign
        { Version := ascii "2.0", Identifier := identifier,
          SdkAppID := (sdkappid % 2 ^ 64).toNat, Expire := expire,
          Time := now, UserBuf := some [], Sig := [] } key }
    { Version := ascii "2.0", Identifier := identifier,
      SdkAppID := (sdkappid % 2 ^ 64).toNat, Expire := expire,
      Time := now, UserBuf := some [], Sig := [] }
    rfl rfl rfl rfl rfl rfl
  refine ⟨?_, ?_, ?_, ?_⟩
  · intro now2 hcontra
    simp only [VerifyUserSig] at hcontra
    rw [hnewtok] at hcontra
    simp only [] at hcontra
    exact hne ((verify_eq_none_iff _ _ _ _ _ _).1 hcontra).2.2.2.2
  · intro now2 hcontra
    simp only [VerifyUserSigWithBuf] at hcontra
    rw [hnewtok] at hcontra
    simp only [] at hcontra
    have hb := ((verify_eq_none_iff _ _ _ _ _ _).1 hcontra).2.2.2.1
    simp [bufCheck] at hb
  · simp only [VerifyUserSigWithBuf]
    rw [hnewtok]
    simp only []
    simp only [userSig.verify]
    rw [if_neg (by simp), if_neg (by simp)]
    rw [if_neg (by
      show ¬now > wrap64 (now + expire)
      rw [wrap64_eq (now + expire) (by omega) (by omega)]
      omega)]
    simp only [bufCheck]
  · simp only [VerifyUserSig]
    rw [hnewtok]
    simp only []
    simp only [userSig.verify]
    rw [if_neg (by simp), if_neg (by simp)]
    rw [if_neg (by
      show ¬now > wrap64 (now + expire)
      rw [wrap64_eq (now + expire) (by omega) (by omega)]
      omega)]
    simp only [bufCheck]
    rw [show (2 : Int) ^ 64 = 18446744073709551616 from by norm_num] at hne
    simp [hne]

/-- Claim C1, refuted by the code: an input that URL-safe base64-decodes
and zlib-decompresses but whose payload fails JSON parsing is NOT
rejected — `newUserSig` swallows the `json.Unmarshal` error (line 328)
and returns a zero-valued document with a nil error, an implicit
success.  The token built from the payload `"x"` is such an input. -/
theorem json_failure_swallowed :
    b64decodeUrl (b64encodeUrl (zlibCompress (ascii "x"))) =
      some (zlibCompress (ascii "x")) ∧
    zlibDecompress (zlibCompress (ascii "x")) = some (ascii "x") ∧
    jsonUnmarshalUserSig (ascii "x") = none ∧
    newUserSig (b64encodeUrl (zlibCompress (ascii "x"))) =
      some ({} : userSig) := by
  refine ⟨by decide, by decide, by decide, by decide⟩

set_option maxRecDepth 100000 in
theorem roundtrip_verify_overflow_counterexample :
    (0 : Int) < 2 ^ 63 - 1 ∧
    VerifyUserSig ((1 : Int) % 2 ^ 64).toNat [107] [97]
      (genSig 1 [107] [97] (2 ^ 63 - 1) none 1) 1 = some .ErrExpired := by
  constructor
  · norm_num
  · decide

set_option maxRecDepth 100000 in
theorem roundtrip_verify_witness :
    VerifyUserSig ((5 : Int) % 2 ^ 64).toNat [107] [97]
      (genSig 5 [107] [97] 2 none 3) 3 = none :=
  roundtrip_verify 5 [107] [97] 2 3 (by decide) (by decide) (by decide)
    (by decide) (by decide) (by decide)

theorem emptybuf_token_facts_witness :
    VerifyUserSigWithBuf ((5 : Int) % 2 ^ 64).toNat [107] [97]
      (GenUserSigWithBuf 5 [107] [97] 2 (some []) 3) 3 (some []) =
      some .ErrUserBufTypeNotMatch :=
  (emptybuf_token_facts 5 [107] [97] 2 3 (by decide) (by decide) (by decide)
    (by decide) (by decide) (by decide)).2.2.1
